import Mathlib

/-!
Verification development for the Pearson grade-conversion scraper.

The development shallowly embeds the pure content of the repository's four
source files:

* `src/file_processor.js` — the canonicalization/merge engine
  (`getBaseSubjectName`, `isMathSubject`, `parseUnitCode`, `organizeData`,
  `processMathSubjects`, `processRegularSubjects`);
* `src/modules/dataProcessor.js` — the `ProgressTracker` ledger class
  (its second, `completedSessions`-aware variant) and `getSummary`;
* `src/modules/scraper.js` — the orchestrator (`scrapeSeries`,
  `processSubject`, `processUnit`, `shouldProcessSubject`, and the
  session-label validation).

JavaScript strings are embedded as `String`/`List Char`, objects used as
string-keyed dictionaries as insertion-ordered association lists, and the
filesystem/page adapter as explicit data (`World`, `RawSubject`, …) whose
`Option` components model thrown errors.  Regex operations are translated
to explicit scanning functions that reproduce the greedy/backtracking
behaviour of the concrete patterns used by the source.
-/

/-- JS regex class `[A-Z]` (ASCII uppercase letters). -/
def isUpperAZ (c : Char) : Bool := decide ('A' ≤ c) && decide (c ≤ 'Z')

/-- JS regex class `\d` (ASCII digits). -/
def isDigit09 (c : Char) : Bool := decide ('0' ≤ c) && decide (c ≤ '9')

/-- JS regex class `\s`: the ECMAScript white-space and line-terminator set. -/
def isJsWs (c : Char) : Bool :=
  c == ' ' || c == '\t' || c == '\n' || c == '\r' ||
  c.val == 11 || c.val == 12 || c.val == 0xa0 || c.val == 0x1680 ||
  (decide (0x2000 ≤ c.val) && decide (c.val ≤ 0x200a)) ||
  c.val == 0x2028 || c.val == 0x2029 || c.val == 0x202f ||
  c.val == 0x205f || c.val == 0x3000 || c.val == 0xfeff

/-- Membership test on a list of strings (JS `Array.prototype.includes`). -/
def containsStr : List String → String → Bool
  | [], _ => false
  | a :: as, x => (a = x) || containsStr as x

/-- Whether `pre` is a leading segment of `s` (character lists). -/
def leadsList : List Char → List Char → Bool
  | [], _ => true
  | _ :: _, [] => false
  | a :: as, b :: bs => (a == b) && leadsList as bs

/-- JS `String.prototype.includes`: `needle` occurs contiguously in `hay`. -/
def containsSubstring (needle : List Char) : List Char → Bool
  | [] => leadsList needle []
  | c :: rest => leadsList needle (c :: rest) || containsSubstring needle rest

/-- JS `String.prototype.endsWith` for a fixed suffix. -/
def endsWithStr (suffix s : String) : Bool :=
  leadsList suffix.data.reverse s.data.reverse

/-- Consume the word `w` from the front of `s`, returning the remainder. -/
def consumeWord : List Char → List Char → Option (List Char)
  | [], s => some s
  | _ :: _, [] => none
  | a :: as, b :: bs => if a == b then consumeWord as bs else none

/-- Insertion-ordered lookup in an association list, mirroring JS property
access `obj[k]` on a plain object used as a dictionary. -/
def lookupA {α : Type} : List (String × α) → String → Option α
  | [], _ => none
  | (k, v) :: rest, x => if k = x then some v else lookupA rest x

/-- Update-or-append on an association list, mirroring the JS idiom
`obj[k] = f(obj[k] || d)`: an existing key keeps its position, a new key is
appended (JS objects enumerate string keys in insertion order). -/
def updAssoc {α : Type} : List (String × α) → String → α → (α → α) → List (String × α)
  | [], k, d, f => [(k, f d)]
  | (k, v) :: rest, x, d, f =>
    if k = x then (k, f v) :: rest else (k, v) :: updAssoc rest x d f

/-! ## Identifier parser (`src/file_processor.js`)

`parseUnitCode` embeds `filename.match(/^([A-Z]{2,3}\d{2}(?:-\d{2})?[A-Z]?)/)`.
The quantifier `{2,3}` is greedy with backtracking (three letters are tried
first, two on failure); the two optional groups are greedy and, since nothing
follows them in the pattern, never backtrack. -/

/-- Optional group `(?:-\d{2})?`: the consumed characters and the rest. -/
def dashOpt (s : List Char) : List Char × List Char :=
  match s with
  | '-' :: e1 :: e2 :: rest3 =>
    if isDigit09 e1 && isDigit09 e2 then (['-', e1, e2], rest3) else ([], s)
  | _ => ([], s)

/-- Optional group `[A-Z]?`: the consumed characters and the rest. -/
def letterOpt (s : List Char) : List Char × List Char :=
  match s with
  | c :: rest => if isUpperAZ c then ([c], rest) else ([], s)
  | [] => ([], s)

/-- Tail of the unit-code pattern after the letters: `\d{2}(?:-\d{2})?[A-Z]?`,
returning the matched characters. -/
def matchTail (s : List Char) : Option (List Char) :=
  match s with
  | d1 :: d2 :: rest =>
    if isDigit09 d1 && isDigit09 d2 then
      some (d1 :: d2 :: ((dashOpt rest).1 ++ (letterOpt (dashOpt rest).2).1))
    else none
  | _ => none

/-- The unit-code regex engine on character lists: `^[A-Z]{2,3}` (greedy,
backtracking from three letters to two) followed by `matchTail`. -/
def parseUnitCodeL : List Char → Option (List Char)
  | a :: b :: rest =>
    if isUpperAZ a && isUpperAZ b then
      match rest with
      | c :: rest2 =>
        if isUpperAZ c then
          match matchTail rest2 with
          | some t => some (a :: b :: c :: t)
          | none =>
            match matchTail rest with
            | some t => some (a :: b :: t)
            | none => none
        else
          match matchTail rest with
          | some t => some (a :: b :: t)
          | none => none
      | [] => none
    else none
  | _ => none

/-- Embeds `parseUnitCode` of `src/file_processor.js`: the unit code matched
at the start of the filename, or `none`. -/
def parseUnitCode (filename : String) : Option String :=
  (parseUnitCodeL filename.data).map fun l => String.mk l

/-- Spec-side description of the unit-code pattern, written from the spec's
words: the tail `\d{2}(-\d{2})?[A-Z]?` as a predicate on a whole string. -/
def tailPat (l : List Char) : Bool :=
  match l with
  | [d1, d2] => isDigit09 d1 && isDigit09 d2
  | [d1, d2, x] => isDigit09 d1 && isDigit09 d2 && isUpperAZ x
  | [d1, d2, x, e1, e2] =>
    isDigit09 d1 && isDigit09 d2 && (x == '-') && isDigit09 e1 && isDigit09 e2
  | [d1, d2, x, e1, e2, c] =>
    isDigit09 d1 && isDigit09 d2 && (x == '-') && isDigit09 e1 && isDigit09 e2 &&
      isUpperAZ c
  | _ => false

/-- Spec-side description of the full pattern `[A-Z]{2,3}\d{2}(-\d{2})?[A-Z]?`
as a predicate on a whole string: two or three uppercase letters followed by a
`tailPat` tail. -/
def specUnitCodePattern (l : List Char) : Bool :=
  match l with
  | a :: b :: rest =>
    isUpperAZ a && isUpperAZ b &&
      (tailPat rest ||
        (match rest with
         | c :: rest2 => isUpperAZ c && tailPat rest2
         | [] => false))
  | _ => false

/-! ## Base subject name (`src/file_processor.js`)

`getBaseSubjectName` embeds
`subject.replace(/\s*\(\d{4}\)\s*/g, "").replace(/_+$/, "")`.
A match of the first pattern at a position consumes the maximal white-space
run there (backtracking to a shorter run cannot help, since the next pattern
character `(` is not white space), then `(`, four digits, `)`, then the
maximal trailing white-space run; the global scan resumes after the match. -/

/-- Attempt to match `\s*\(\d{4}\)\s*` at the head of `s`; on success return
the remainder after the whole match. -/
def tryYear (s : List Char) : Option (List Char) :=
  match List.dropWhile isJsWs s with
  | '(' :: d1 :: d2 :: d3 :: d4 :: ')' :: r2 =>
    if isDigit09 d1 && isDigit09 d2 && isDigit09 d3 && isDigit09 d4 then
      some (List.dropWhile isJsWs r2)
    else none
  | _ => none

/-- Worker for the global scan of `replace(/\s*\(\d{4}\)\s*/g, "")`: try a
match at every position; on a match, drop it and resume after its end.  The
recursion is structural on a fuel that bounds the remaining length (a match
always consumes at least one character), so the function evaluates by kernel
reduction; `stripYears` below supplies sufficient fuel. -/
def stripYearsFuel : Nat → List Char → List Char
  | 0, _ => []
  | _ + 1, [] => []
  | fuel + 1, c :: rest =>
    match tryYear (c :: rest) with
    | some r => stripYearsFuel fuel r
    | none => c :: stripYearsFuel fuel rest

/-- Global scan of `replace(/\s*\(\d{4}\)\s*/g, "")`. -/
def stripYears (s : List Char) : List Char :=
  stripYearsFuel s.length s

/-- Embeds `replace(/_+$/, "")`: remove the maximal trailing underscore run. -/
def stripTrailingUnderscores (s : List Char) : List Char :=
  (s.reverse.dropWhile fun c => c == '_').reverse

/-- Embeds `getBaseSubjectName` of `src/file_processor.js`. -/
def getBaseSubjectName (subject : String) : String :=
  String.mk (stripTrailingUnderscores (stripYears subject.data))

/-- Embeds `isMathSubject` of `src/file_processor.js`. -/
def isMathSubject (subject : String) : Bool :=
  containsStr ["Mathematics", "Further_Mathematics", "Pure_Mathematics"] subject

/-! ## Progress Ledger (`src/modules/dataProcessor.js`, second `ProgressTracker`)

The ledger state is the `this.progress` object: nested string-keyed
dictionaries `completed` and `failed` (qualification → session → subject →
array of unit names), `completedSessions` (qualification → array of session
labels), a `lastUpdate` timestamp (null before the first save) and six
aggregate counters.  Dictionaries are embedded as insertion-ordered
association lists and arrays as lists, so `push` is append at the end. -/

/-- Three-level nested map used for the `completed` and `failed` fields. -/
abbrev UnitMap := List (String × List (String × List (String × List String)))

/-- The six aggregate counters of `this.progress.stats`. -/
structure Stats where
  totalSessions : Nat
  totalSubjects : Nat
  totalUnits : Nat
  completedUnits : Nat
  failedUnits : Nat
  completedSessions : Nat
deriving Repr, DecidableEq

/-- The persisted ledger state `this.progress`. -/
structure Progress where
  completed : UnitMap
  failed : UnitMap
  completedSessions : List (String × List String)
  lastUpdate : Option String
  stats : Stats
deriving Repr, DecidableEq

/-- The constructor's fresh ledger state. -/
def freshProgress : Progress :=
  { completed := []
    failed := []
    completedSessions := []
    lastUpdate := none
    stats := ⟨0, 0, 0, 0, 0, 0⟩ }

/-- Embeds `ProgressTracker.save`: stamp `lastUpdate` with the current time
and persist the whole structure (persistence itself is the identity on the
in-memory state). -/
def save (now : String) (t : Progress) : Progress :=
  { t with lastUpdate := some now }

/-- Membership in a three-level nested map, with absence at any level giving
`false` (the chain of falsy-guard early returns in the source). -/
def memUnitMap (m : UnitMap) (q s subj u : String) : Bool :=
  match lookupA m q with
  | none => false
  | some m1 =>
    match lookupA m1 s with
    | none => false
    | some m2 =>
      match lookupA m2 subj with
      | none => false
      | some l => containsStr l u

/-- Embeds `ProgressTracker.isCompleted`. -/
def isCompleted (t : Progress) (q s subj u : String) : Bool :=
  memUnitMap t.completed q s subj u

/-- Embeds `ProgressTracker.hasFailed`. -/
def hasFailed (t : Progress) (q s subj u : String) : Bool :=
  memUnitMap t.failed q s subj u

/-- Embeds `ProgressTracker.isSessionCompleted`. -/
def isSessionCompleted (t : Progress) (q s : String) : Bool :=
  match lookupA t.completedSessions q with
  | none => false
  | some l => containsStr l s

/-- Insert a unit into a nested map: missing levels are created (`|| {}` /
`|| []`), and the unit is pushed only if not already included. -/
def insertUnit (m : UnitMap) (q s subj u : String) : UnitMap :=
  updAssoc m q [] fun m1 =>
    updAssoc m1 s [] fun m2 =>
      updAssoc m2 subj [] fun l =>
        if containsStr l u then l else l ++ [u]

/-- Embeds `ProgressTracker.markAsCompleted`: insert the unit into the
`completed` map, incrementing `stats.completedUnits` only on first insertion. -/
def markAsCompleted (t : Progress) (q s subj u : String) : Progress :=
  { t with
    completed := insertUnit t.completed q s subj u
    stats :=
      if isCompleted t q s subj u then t.stats
      else { t.stats with completedUnits := t.stats.completedUnits + 1 } }

/-- Embeds `ProgressTracker.markAsFailed`: identical to `markAsCompleted` but
on the `failed` map and `stats.failedUnits`.  The `error` argument is accepted
exactly as in the source, whose body never reads it. -/
def markAsFailed (t : Progress) (q s subj u : String) (error : String) : Progress :=
  { t with
    failed := insertUnit t.failed q s subj u
    stats :=
      if hasFailed t q s subj u then t.stats
      else { t.stats with failedUnits := t.stats.failedUnits + 1 } }

/-- Embeds `ProgressTracker.markSessionAsCompleted`. -/
def markSessionAsCompleted (t : Progress) (q s : String) : Progress :=
  { t with
    completedSessions :=
      updAssoc t.completedSessions q [] fun l =>
        if containsStr l s then l else l ++ [s]
    stats :=
      if isSessionCompleted t q s then t.stats
      else { t.stats with completedSessions := t.stats.completedSessions + 1 } }

/-- Embeds `ProgressTracker.updateStats`: unconditionally overwrite the three
`total` counters. -/
def updateStats (t : Progress) (totalSessions totalSubjects totalUnits : Nat) : Progress :=
  { t with
    stats :=
      { t.stats with
        totalSessions := totalSessions
        totalSubjects := totalSubjects
        totalUnits := totalUnits } }

/-- JS `Math.round` on a non-negative value: the integer nearest to `q`,
halves rounding up. -/
def jsRound (q : ℚ) : Int := ⌊q + 1 / 2⌋

/-- Result object of `ProgressTracker.getSummary`. -/
structure Summary where
  totalSessions : Nat
  totalSubjects : Nat
  totalUnits : Nat
  completedUnits : Nat
  failedUnits : Nat
  completedSessions : Nat
  progress : String
  lastUpdate : Option String

/-- Embeds `ProgressTracker.getSummary`: a read-only projection of the stats,
with the completion percentage rendered as
`Math.round((completedUnits / totalUnits) * 100)` followed by a percent sign
whenever `totalUnits > 0`, and `0%` otherwise. -/
def getSummary (t : Progress) : Summary :=
  { totalSessions := t.stats.totalSessions
    totalSubjects := t.stats.totalSubjects
    totalUnits := t.stats.totalUnits
    completedUnits := t.stats.completedUnits
    failedUnits := t.stats.failedUnits
    completedSessions := t.stats.completedSessions
    progress :=
      if 0 < t.stats.totalUnits then
        toString (jsRound ((t.stats.completedUnits : ℚ) / t.stats.totalUnits * 100)) ++ "%"
      else "0%"
    lastUpdate := t.lastUpdate }

/-! ### `ProgressTracker.initialize`

Reading and JSON-parsing the ledger file is a single fallible step, embedded
as an `Option RawProgress` argument: `none` models a missing file or invalid
JSON (any exception from `fs.readFile` or `JSON.parse`), `some` carries the
parsed document.  A parsed document may lack the `completedSessions` field or
the `stats.completedSessions` counter (older ledgers), which the source
backfills; those two are therefore `Option`-valued in the raw document. -/

/-- Counters of a parsed ledger document; `completedSessions` may be absent. -/
structure RawStats where
  totalSessions : Nat
  totalSubjects : Nat
  totalUnits : Nat
  completedUnits : Nat
  failedUnits : Nat
  completedSessions : Option Nat

/-- A parsed ledger document; `completedSessions` may be absent. -/
structure RawProgress where
  completed : UnitMap
  failed : UnitMap
  completedSessions : Option (List (String × List String))
  lastUpdate : Option String
  stats : RawStats

/-- Embeds the `ProgressTracker` init method (its name is reserved in this development): on a successful read/parse, adopt the
document (backfilling the two backward-compatibility fields); on any failure,
keep the constructor's fresh state and persist it via `save`.  The returned
flag records whether the fresh state was written back to disk. -/
def initProgressTracker (readResult : Option RawProgress) (now : String) : Progress × Bool :=
  match readResult with
  | some rp =>
    ({ completed := rp.completed
       failed := rp.failed
       completedSessions := rp.completedSessions.getD []
       lastUpdate := rp.lastUpdate
       stats :=
         { totalSessions := rp.stats.totalSessions
           totalSubjects := rp.stats.totalSubjects
           totalUnits := rp.stats.totalUnits
           completedUnits := rp.stats.completedUnits
           failedUnits := rp.stats.failedUnits
           completedSessions := rp.stats.completedSessions.getD 0 } }, false)
  | none => (save now freshProgress, true)

/-! ## Orchestrator (`src/modules/scraper.js`)

The page-driving adapter is embedded as a static `World`: the listings each
`page.evaluate` would return, and the outcome of each unit's
selection/extraction.  `Option` components model thrown errors: a `none`
subject list stands for `navigateToSession` (or the subject listing) raising,
a `none` unit list for `selectSubject` (or the unit listing) raising — both
caught by the enclosing loop in the source.  All filesystem writes
(`tracker.save`) are kept in-memory via `save`. -/

/-- Outcome of attempting one unit through the adapter. -/
inductive UnitResult where
  /-- Selection and extraction succeeded and `processData` produced `n` rows. -/
  | rows (n : Nat)
  /-- The tabs section was missing (`hasTabsSection` false). -/
  | noTabs
  /-- `selectUnit`, `selectAllScoresTab` or `extractAllScoresData` raised
  with the given message. -/
  | throwErr (msg : String)
deriving Repr, DecidableEq

/-- One unit as discovered in the unit listing. -/
structure UnitData where
  name : String
  result : UnitResult
deriving Repr, DecidableEq

/-- One subject as discovered in the subject listing; `units = none` models
`selectSubject` (or the unit listing) raising. -/
structure SubjectData where
  name : String
  units : Option (List UnitData)
deriving Repr, DecidableEq

/-- One candidate session item; `subjects = none` models `navigateToSession`
(or the subject listing) raising. -/
structure SessionData where
  name : String
  subjects : Option (List SubjectData)
deriving Repr, DecidableEq

/-- The `QUALIFICATION_TYPE` constant of `src/modules/scraper.js`. -/
def QUALIFICATION_TYPE : String := "International A Level"

/-- Tail of the session-label pattern: `\s+\d{4}$`.  The white-space
quantifier is greedy and, since `\d` and `\s` are disjoint, a match forces the
maximal run. -/
def wsYearEnd (s : List Char) : Bool :=
  match s with
  | c :: rest =>
    if isJsWs c then
      match List.dropWhile isJsWs rest with
      | [d1, d2, d3, d4] => isDigit09 d1 && isDigit09 d2 && isDigit09 d3 && isDigit09 d4
      | _ => false
    else false
  | [] => false

/-- Embeds the session filter `/^(January|June|October)\s+\d{4}$/.test(s)` of
`scrapeSeries`. -/
def sessionValid (s : String) : Bool :=
  (["January", "June", "October"] : List String).any fun m =>
    match consumeWord m.data s.data with
    | some rest => wsYearEnd rest
    | none => false

/-- Embeds `shouldProcessSubject`: with no filter configured every subject is
processed, otherwise the subject must contain one of the filter terms,
case-insensitively.  The configured `FILTER_SUBJECTS` array (possibly
overridden from the command line) is passed as the `filterSubjects` argument;
the empty list stands for both a null and an empty configured filter. -/
def shouldProcessSubject (filterSubjects : List String) (subject : String) : Bool :=
  if filterSubjects.isEmpty then true
  else
    filterSubjects.any fun term =>
      containsSubstring (term.data.map Char.toLower) (subject.data.map Char.toLower)

/-- Embeds the body of the unit loop of `processSubject`, including the
inlined `processUnit`.  Returns the tracker, whether `processedUnits` was
incremented, and how many adapter-level unit selections were performed (`0`
when the ledger short-circuits the unit, `1` when `processUnit` runs). -/
def unitStep (now q s subj : String) (t : Progress) (u : UnitData) :
    Progress × Bool × Nat :=
  if isCompleted t q s subj u.name then (t, true, 0)
  else if hasFailed t q s subj u.name then (t, true, 0)
  else
    match u.result with
    | .throwErr msg => (save now (markAsFailed t q s subj u.name msg), true, 1)
    | .noTabs => (save now (markAsFailed t q s subj u.name "No tabs section found"), false, 1)
    | .rows 0 => (save now (markAsFailed t q s subj u.name "No data extracted"), false, 1)
    | .rows (_ + 1) => (save now (markAsCompleted t q s subj u.name), true, 1)

/-- One iteration of the unit loop of `processSubject`, threading the
tracker, the `processedUnits` counter and the selection count. -/
def subjUnitStep (now q s subj : String) (acc : Progress × Nat × Nat) (u : UnitData) :
    Progress × Nat × Nat :=
  let step := unitStep now q s subj acc.1 u
  (step.1, acc.2.1 + (if step.2.1 then 1 else 0), acc.2.2 + step.2.2)

/-- Embeds `processSubject`.  `none` models the function raising
(`selectSubject` or the unit listing failed); otherwise the result carries the
updated tracker, `totalUnits`, `processedUnits` and the number of unit-level
adapter selections made. -/
def processSubject (now q s : String) (t : Progress) (sd : SubjectData) :
    Option (Progress × Nat × Nat × Nat) :=
  match sd.units with
  | none => none
  | some units =>
    let summ := getSummary t
    let t1 := save now (updateStats t summ.totalSessions summ.totalSubjects
      (summ.totalUnits + units.length))
    let r := units.foldl (subjUnitStep now q s sd.name) (t1, 0, 0)
    some (r.1, units.length, r.2.1, r.2.2)

/-- One iteration of the subject loop of `scrapeSeries`, threading the
tracker, the two per-session unit counters and the selection count; a raising
`processSubject` is caught and the state passes through unchanged. -/
def sessSubjStep (now sname : String) (acc : Progress × Nat × Nat × Nat) (x : SubjectData) :
    Progress × Nat × Nat × Nat :=
  match processSubject now QUALIFICATION_TYPE sname acc.1 x with
  | none => acc
  | some (t2, tu, pu, sel) => (t2, acc.2.1 + tu, acc.2.2.1 + pu, acc.2.2.2 + sel)

/-- Embeds one iteration of the session loop of `scrapeSeries`: the fast skip
of ledger-completed sessions, subject discovery and filtering, the cumulative
`totalSubjects` counter, the per-session unit accounting and the final
`markSessionAsCompleted` check.  The state is (tracker, cumulative
`totalSubjects`, unit-level selections so far). -/
def processSession (now : String) (validCount : Nat) (filterSubjects : List String)
    (st : Progress × Nat × Nat) (sd : SessionData) : Progress × Nat × Nat :=
  let t := st.1
  let subjAcc := st.2.1
  let selAcc := st.2.2
  if isSessionCompleted t QUALIFICATION_TYPE sd.name then st
  else
    match sd.subjects with
    | none => st
    | some subjList =>
      let filtered := subjList.filter fun x => shouldProcessSubject filterSubjects x.name
      let subjAcc1 := subjAcc + filtered.length
      let t1 := save now (updateStats t validCount subjAcc1 0)
      let r := filtered.foldl (sessSubjStep now sd.name) (t1, 0, 0, 0)
      let t3 :=
        if 0 < r.2.1 ∧ r.2.2.1 = r.2.1 then
          save now (markSessionAsCompleted r.1 QUALIFICATION_TYPE sd.name)
        else r.1
      (t3, subjAcc1, selAcc + r.2.2.2)

/-- Result of one orchestrator run: the final tracker state and the number of
unit-level adapter selections performed. -/
structure RunResult where
  tracker : Progress
  selections : Nat
deriving Repr, DecidableEq

/-- Embeds `scrapeSeries` (given an already-initialized tracker state `t0`):
validate the discovered session list, fail the run when no valid session
remains (`none`), reset the stats to `(validSessions.length, 0, 0)`, process
each session in order, and perform the final save. -/
def scrapeSeries (now : String) (filterSubjects : List String)
    (sessions : List SessionData) (t0 : Progress) : Option RunResult :=
  let valid := sessions.filter fun sd => sessionValid sd.name
  if valid.isEmpty then none
  else
    let t1 := save now (updateStats t0 valid.length 0 0)
    let r := valid.foldl (processSession now valid.length filterSubjects) (t1, 0, 0)
    some ⟨save now r.1, r.2.2⟩

/-! ## Canonicalization/Merge Engine (`src/file_processor.js`)

The raw tree is embedded as data: qualification and session directory entries
carry the `isDirectory()` flag checked by `organizeData`, and each subject
folder carries `files : Option (List String)` where `none` models `readdir`
raising `ENOENT`/`ENOTDIR` (warn-and-skip in the source).  `copyFile` side
effects are reified as the ordered list of copied filenames; both
`processMathSubjects` and `processRegularSubjects` run the same per-group
loop, differing only in the target folder chosen by `organizeData`. -/

/-- One raw subject folder of a session. -/
structure RawSubject where
  name : String
  files : Option (List String)
deriving Repr, DecidableEq

/-- One entry of a session directory listing. -/
structure SessEntry where
  name : String
  isDir : Bool
  subjects : List RawSubject
deriving Repr, DecidableEq

/-- One entry of the source directory listing. -/
structure QualEntry where
  name : String
  isDir : Bool
  sessions : List SessEntry
deriving Repr, DecidableEq

/-- Result of one group-processing invocation: the filenames copied into the
target folder in copy order, plus the two reported counters. -/
structure GroupResult where
  copies : List String
  processedFiles : Nat
  duplicatesFound : Nat
deriving Repr, DecidableEq

/-- The per-file body of the group loop: skip non-`.json` names, skip (with a
warning) unparseable names, count the file, then either count a duplicate or
record the unit code and copy the file.  State: (seen unit codes, copies,
`processedFiles`, `duplicatesFound`). -/
def procFile (st : List String × List String × Nat × Nat) (file : String) :
    List String × List String × Nat × Nat :=
  let codes := st.1
  let copies := st.2.1
  let pf := st.2.2.1
  let df := st.2.2.2
  if ¬ endsWithStr ".json" file then st
  else
    match parseUnitCode file with
    | none => st
    | some unitCode =>
      if containsStr codes unitCode then (codes, copies, pf + 1, df + 1)
      else (codes ++ [unitCode], copies ++ [file], pf + 1, df)

/-- The per-variant body of the group loop: a folder whose listing raised is
skipped with a warning, otherwise its files are processed in listing order. -/
def procVariant (st : List String × List String × Nat × Nat) (v : RawSubject) :
    List String × List String × Nat × Nat :=
  match v.files with
  | none => st
  | some fs => fs.foldl procFile st

/-- The common loop of `processMathSubjects` and `processRegularSubjects`:
one `processedUnitCodes` set per invocation, variants processed in group
order. -/
def processSubjectGroup (variants : List RawSubject) : GroupResult :=
  let r := variants.foldl procVariant ([], [], 0, 0)
  ⟨r.2.1, r.2.2.1, r.2.2.2⟩

/-- Embeds `processMathSubjects`; its target folder is the fixed
`Mathematics` directory, chosen by the caller below. -/
def processMathSubjects (mathSubjects : List RawSubject) : GroupResult :=
  processSubjectGroup mathSubjects

/-- Embeds `processRegularSubjects`; its target folder is the group's base
subject name, chosen by the caller below. -/
def processRegularSubjects (subjectVariants : List RawSubject) : GroupResult :=
  processSubjectGroup subjectVariants

/-- Embeds the grouping pass of `organizeData`: subjects are grouped by
`getBaseSubjectName` into a JS object, i.e. an insertion-ordered map from
base name to the variants in listing order. -/
def groupSubjects (subjects : List RawSubject) : List (String × List RawSubject) :=
  subjects.foldl
    (fun groups sd => updAssoc groups (getBaseSubjectName sd.name) [] fun l => l ++ [sd])
    []

/-- Per-session output of `organizeData`: copies as (target folder, filename)
in copy order, plus the session's contributions to the two totals. -/
structure SessionOutput where
  copies : List (String × String)
  totalFiles : Nat
  duplicates : Nat
deriving Repr, DecidableEq

/-- The per-group body of the session loop of `organizeData`: a group
containing any exact math-family name is routed through `processMathSubjects`
into the fixed `Mathematics` folder, every other group through
`processRegularSubjects` into its base-name folder. -/
def organizeGroupStep (out : SessionOutput) (g : String × List RawSubject) : SessionOutput :=
  if g.2.any (fun v => isMathSubject v.name) then
    let r := processMathSubjects g.2
    ⟨out.copies ++ r.copies.map (fun f => ("Mathematics", f)),
     out.totalFiles + r.processedFiles, out.duplicates + r.duplicatesFound⟩
  else
    let r := processRegularSubjects g.2
    ⟨out.copies ++ r.copies.map (fun f => (g.1, f)),
     out.totalFiles + r.processedFiles, out.duplicates + r.duplicatesFound⟩

/-- Embeds the per-session body of `organizeData`: group the subject folders
and process each group. -/
def organizeSession (subjects : List RawSubject) : SessionOutput :=
  (groupSubjects subjects).foldl organizeGroupStep ⟨[], 0, 0⟩

/-- Whole-tree output of `organizeData`: copies as (qualification, session,
target folder, filename) in copy order, plus the two reported totals. -/
structure TreeOutput where
  copies : List (String × String × String × String)
  totalFiles : Nat
  duplicates : Nat
deriving Repr, DecidableEq

/-- The per-session body of the qualification loop of `organizeData`:
non-directory entries are skipped by the `stat` check. -/
def organizeSessionStep (qname : String) (out : TreeOutput) (s : SessEntry) : TreeOutput :=
  if ¬ s.isDir then out
  else
    let r := organizeSession s.subjects
    ⟨out.copies ++ r.copies.map (fun p => (qname, s.name, p.1, p.2)),
     out.totalFiles + r.totalFiles, out.duplicates + r.duplicates⟩

/-- The per-qualification body of `organizeData`: non-directory entries are
skipped by the `stat` check. -/
def organizeQualStep (out : TreeOutput) (q : QualEntry) : TreeOutput :=
  if ¬ q.isDir then out
  else q.sessions.foldl (organizeSessionStep q.name) out

/-- Embeds `organizeData`: walk the qualification and session directories and
process every session. -/
def organizeData (tree : List QualEntry) : TreeOutput :=
  tree.foldl organizeQualStep ⟨[], 0, 0⟩

/-- Contents of one canonical output folder after all copies: since
`fs.copyFile` overwrites, the folder holds one file per distinct filename
copied to it. -/
def folderContents (out : SessionOutput) (folder : String) : List String :=
  ((out.copies.filter fun p => p.1 = folder).map fun p => p.2).dedup

/-- A unit is accounted for in the ledger when it is in the completed set or
in the failed set. -/
def accounted (t : Progress) (q s subj u : String) : Bool :=
  isCompleted t q s subj u || hasFailed t q s subj u

/-- A session is done with respect to a tracker state when it is flagged
session-completed, or every unit its listings can reach (through a subject
listing that did not raise and passed the filter, and a unit listing that did
not raise) is accounted for.  After a completed run this holds for every
valid session, and it makes a subsequent run skip every unit. -/
def sessionDone (t : Progress) (filterSubjects : List String) (sd : SessionData) : Prop :=
  isSessionCompleted t QUALIFICATION_TYPE sd.name = true ∨
  ∀ subjList, sd.subjects = some subjList →
    ∀ x ∈ subjList, shouldProcessSubject filterSubjects x.name = true →
      ∀ units, x.units = some units →
        ∀ ud ∈ units, accounted t QUALIFICATION_TYPE sd.name x.name ud.name = true

/-- Two tracker states agree on everything a second, fully-skipping run must
preserve: the completed and failed sets and their two counters. -/
def sameSets (a b : Progress) : Prop :=
  a.completed = b.completed ∧ a.failed = b.failed ∧
  a.stats.completedUnits = b.stats.completedUnits ∧
  a.stats.failedUnits = b.stats.failedUnits

/-- Invariant of the per-group merge loop state (seen codes, copies,
`processedFiles`, `duplicatesFound`): the file count splits into duplicates
plus copies, the copies parse exactly to the recorded codes in order, and the
recorded codes are distinct. -/
def groupInv (st : List String × List String × Nat × Nat) : Prop :=
  st.2.2.1 = st.2.2.2 + st.1.length ∧
  st.2.1.map parseUnitCode = st.1.map some ∧
  st.1.Nodup

/-! ## Helper lemmas

Facts about the character classes, the unit-code parser and the association
maps, shared by the claim theorems below. -/

/-- Declares that an ASCII digit is not an ASCII uppercase letter. -/
theorem digit_not_upper {c : Char} (h : isDigit09 c = true) : isUpperAZ c = false := by
  simp only [isDigit09, isUpperAZ, Bool.and_eq_true, decide_eq_true_eq] at *
  simp only [Bool.and_eq_false_iff, decide_eq_false_iff_not]
  left
  intro hA
  have h9 := h.2
  have : ('A' : Char) ≤ '9' := le_trans hA h9
  exact absurd this (by decide)

theorem dashOpt_cases (s : List Char) :
    (dashOpt s = ([], s)) ∨
      (∃ e1 e2 r3, s = '-' :: e1 :: e2 :: r3 ∧ isDigit09 e1 = true ∧
        isDigit09 e2 = true ∧ dashOpt s = (['-', e1, e2], r3)) := by
  unfold dashOpt
  split
  next e1 e2 r3 =>
    by_cases h : (isDigit09 e1 && isDigit09 e2) = true
    · right
      refine ⟨e1, e2, r3, rfl, ?_, ?_, ?_⟩
      · exact (Bool.and_eq_true _ _ |>.mp h).1
      · exact (Bool.and_eq_true _ _ |>.mp h).2
      · rw [if_pos h]
    · left; rw [if_neg h]
  next => left; rfl

theorem letterOpt_cases (s : List Char) :
    (letterOpt s = ([], s)) ∨
      (∃ c r, s = c :: r ∧ isUpperAZ c = true ∧ letterOpt s = ([c], r)) := by
  unfold letterOpt
  split
  next c r =>
    by_cases h : isUpperAZ c = true
    · right; exact ⟨c, r, rfl, h, by rw [if_pos h]⟩
    · left; rw [if_neg (by simpa using h)]
  next => left; rfl

theorem matchTail_sound {s t : List Char} (h : matchTail s = some t) :
    tailPat t = true ∧ ∃ r, s = t ++ r := by
  unfold matchTail at h
  split at h
  next d1 d2 rest =>
    split at h
    next hdig =>
      injection h with h
      obtain ⟨h1, h2⟩ := Bool.and_eq_true _ _ |>.mp hdig
      rcases dashOpt_cases rest with hda | ⟨e1, e2, r3, hs, he1, he2, hda⟩
      · rcases letterOpt_cases (dashOpt rest).2 with hle | ⟨c, r, hs2, hc, hle⟩
        · rw [hda] at hle
          rw [hda, hle] at h
          subst h
          refine ⟨by simp [tailPat, h1, h2], rest, ?_⟩
          simp
        · rw [hda] at hs2 hle
          rw [hda, hle] at h
          subst h
          refine ⟨by simp [tailPat, h1, h2, hc], r, ?_⟩
          simp [show rest = c :: r from hs2]
      · rcases letterOpt_cases (dashOpt rest).2 with hle | ⟨c, r, hs2, hc, hle⟩
        · rw [hda] at hle
          rw [hda, hle] at h
          subst h
          refine ⟨by simp [tailPat, h1, h2, he1, he2], r3, ?_⟩
          simp [hs]
        · rw [hda] at hs2 hle
          rw [hda, hle] at h
          subst h
          refine ⟨by simp [tailPat, h1, h2, he1, he2, hc], r, ?_⟩
          simp [hs, show r3 = c :: r from hs2]
    · exact absurd h (by simp)
  next => exact absurd h (by simp)

theorem upper_not_digit {c : Char} (h : isUpperAZ c = true) : isDigit09 c = false := by
  cases hd : isDigit09 c
  · rfl
  · rw [digit_not_upper hd] at h; exact absurd h (by simp)

theorem matchTail_none_of_upper {c : Char} {l : List Char} (h : isUpperAZ c = true) :
    matchTail (c :: l) = none := by
  rcases l with _ | ⟨d, rest⟩
  · rfl
  · simp [matchTail, upper_not_digit h]

theorem matchTail_cons_digits {d1 d2 : Char} (l : List Char)
    (h1 : isDigit09 d1 = true) (h2 : isDigit09 d2 = true) :
    ∃ t, matchTail (d1 :: d2 :: l) = some t :=
  ⟨d1 :: d2 :: ((dashOpt l).1 ++ (letterOpt (dashOpt l).2).1),
    by simp [matchTail, h1, h2]⟩

theorem parseUnitCodeL_sound : ∀ {name code : List Char},
    parseUnitCodeL name = some code →
    specUnitCodePattern code = true ∧ ∃ rest, name = code ++ rest := by
  intro name code h
  rcases name with _ | ⟨a, _ | ⟨b, rest⟩⟩
  · exact absurd h (by simp [parseUnitCodeL])
  · exact absurd h (by simp [parseUnitCodeL])
  simp only [parseUnitCodeL] at h
  split at h
  case isTrue hab =>
    obtain ⟨ha, hb⟩ := Bool.and_eq_true _ _ |>.mp hab
    split at h
    next c rest2 =>
      split at h
      case isTrue hc =>
        split at h
        next t hmt =>
          injection h with h
          subst h
          obtain ⟨htp, r, hr⟩ := matchTail_sound hmt
          refine ⟨by simp [specUnitCodePattern, ha, hb, hc, htp], r, by simp [hr]⟩
        next hmt =>
          split at h
          next t hmt2 =>
            rw [matchTail_none_of_upper hc] at hmt2
            exact absurd hmt2 (by simp)
          next => exact absurd h (by simp)
      case isFalse hc =>
        split at h
        next t hmt =>
          injection h with h
          subst h
          obtain ⟨htp, r, hr⟩ := matchTail_sound hmt
          refine ⟨by simp [specUnitCodePattern, ha, hb, htp], r, by simp [hr]⟩
        next => exact absurd h (by simp)
    next => exact absurd h (by simp)
  case isFalse hab => exact absurd h (by simp)

theorem tailPat_shape {l : List Char} (h : tailPat l = true) :
    ∃ d1 d2 l2, l = d1 :: d2 :: l2 ∧ isDigit09 d1 = true ∧ isDigit09 d2 = true := by
  rcases l with _ | ⟨d1, _ | ⟨d2, l2⟩⟩
  · exact absurd h (by simp [tailPat])
  · exact absurd h (by simp [tailPat])
  refine ⟨d1, d2, l2, rfl, ?_, ?_⟩ <;>
    rcases l2 with _ | ⟨x, _ | ⟨e1, _ | ⟨e2, _ | ⟨c, _ | ⟨y, l6⟩⟩⟩⟩⟩ <;>
      simp [tailPat] at h <;> tauto

theorem parseUnitCodeL_complete {code : List Char} (rest : List Char)
    (hpat : specUnitCodePattern code = true) :
    ∃ t, parseUnitCodeL (code ++ rest) = some t := by
  rcases code with _ | ⟨a, _ | ⟨b, cs⟩⟩
  · exact absurd hpat (by simp [specUnitCodePattern])
  · exact absurd hpat (by simp [specUnitCodePattern])
  rcases cs with _ | ⟨c, cs2⟩
  · exact absurd hpat (by simp [specUnitCodePattern, tailPat])
  simp only [specUnitCodePattern, Bool.and_eq_true, Bool.or_eq_true] at hpat
  obtain ⟨⟨ha, hb⟩, hdisj⟩ := hpat
  rcases hdisj with htp | hcs
  · obtain ⟨d1, d2, l2, hshape, h1, h2⟩ := tailPat_shape htp
    injection hshape with hcd hcs2
    subst hcd
    subst hcs2
    obtain ⟨t, hmt⟩ := matchTail_cons_digits (l2 ++ rest) h1 h2
    exact ⟨a :: b :: t, by simp [parseUnitCodeL, ha, hb, digit_not_upper h1, hmt]⟩
  · obtain ⟨hc, htp⟩ := hcs
    obtain ⟨d1, d2, l2, hshape, h1, h2⟩ := tailPat_shape htp
    subst hshape
    obtain ⟨t, hmt⟩ := matchTail_cons_digits (l2 ++ rest) h1 h2
    exact ⟨a :: b :: c :: t, by simp [parseUnitCodeL, ha, hb, hc, hmt]⟩

theorem containsStr_iff_mem {l : List String} {x : String} :
    containsStr l x = true ↔ x ∈ l := by
  induction l with
  | nil => simp [containsStr]
  | cons a as ih =>
    simp only [containsStr, Bool.or_eq_true, decide_eq_true_eq, List.mem_cons, ih]
    constructor
    · rintro (h | h)
      · exact Or.inl h.symm
      · exact Or.inr h
    · rintro (h | h)
      · exact Or.inl h.symm
      · exact Or.inr h

theorem dropWhile_idem (p : Char → Bool) (l : List Char) :
    List.dropWhile p (List.dropWhile p l) = List.dropWhile p l := by
  induction l with
  | nil => rfl
  | cons c t ih =>
    by_cases h : p c = true
    · rw [List.dropWhile_cons_of_pos h]; exact ih
    · rw [List.dropWhile_cons_of_neg (by simpa using h),
        List.dropWhile_cons_of_neg (by simpa using h)]

theorem stripTrailingUnderscores_idem (s : List Char) :
    stripTrailingUnderscores (stripTrailingUnderscores s) = stripTrailingUnderscores s := by
  unfold stripTrailingUnderscores
  rw [List.reverse_reverse, dropWhile_idem]

theorem groupInv_procFile {st : List String × List String × Nat × Nat}
    (h : groupInv st) (f : String) : groupInv (procFile st f) := by
  obtain ⟨h1, h2, h3⟩ := h
  unfold procFile
  split
  · exact ⟨h1, h2, h3⟩
  · cases hp : parseUnitCode f with
    | none => exact ⟨h1, h2, h3⟩
    | some code =>
      dsimp only
      cases hc : containsStr st.1 code with
      | true =>
        rw [if_pos rfl]
        refine ⟨?_, h2, h3⟩
        show st.2.2.1 + 1 = st.2.2.2 + 1 + st.1.length
        omega
      | false =>
        rw [if_neg (by simp)]
        refine ⟨?_, ?_, ?_⟩
        · simp only [List.length_append, List.length_singleton]
          omega
        · simp [h2, hp]
        · refine List.Nodup.append h3 (by simp) ?_
          intro x hx hy
          simp only [List.mem_singleton] at hy
          subst hy
          exact absurd (containsStr_iff_mem.mpr hx) (by simp [hc])

theorem groupInv_foldl_procFile {files : List String}
    {st : List String × List String × Nat × Nat} (h : groupInv st) :
    groupInv (files.foldl procFile st) := by
  induction files generalizing st with
  | nil => exact h
  | cons f fs ih => exact ih (groupInv_procFile h f)

theorem groupInv_procVariant {st : List String × List String × Nat × Nat}
    (h : groupInv st) (v : RawSubject) : groupInv (procVariant st v) := by
  unfold procVariant
  cases v.files with
  | none => exact h
  | some fs => exact groupInv_foldl_procFile h

theorem groupInv_foldl_procVariant {vs : List RawSubject}
    {st : List String × List String × Nat × Nat} (h : groupInv st) :
    groupInv (vs.foldl procVariant st) := by
  induction vs generalizing st with
  | nil => exact h
  | cons v rest ih => exact ih (groupInv_procVariant h v)

/-- Consequences of `groupInv` for one invocation of the shared group loop:
the stats identity, the distinctness of the emitted identifiers, and the
parseability of every emitted file. -/
theorem processSubjectGroup_spec (variants : List RawSubject) :
    (processSubjectGroup variants).processedFiles =
      (processSubjectGroup variants).duplicatesFound +
        (processSubjectGroup variants).copies.length ∧
    ((processSubjectGroup variants).copies.map parseUnitCode).Nodup ∧
    (∀ f ∈ (processSubjectGroup variants).copies, (parseUnitCode f).isSome = true) := by
  have hinv : groupInv (variants.foldl procVariant ([], [], 0, 0)) :=
    groupInv_foldl_procVariant ⟨rfl, rfl, List.nodup_nil⟩
  obtain ⟨h1, h2, h3⟩ := hinv
  refine ⟨?_, ?_, ?_⟩
  · have hlen : (variants.foldl procVariant ([], [], 0, 0)).2.1.length =
        (variants.foldl procVariant ([], [], 0, 0)).1.length := by
      have := congrArg List.length h2
      simpa using this
    show (variants.foldl procVariant ([], [], 0, 0)).2.2.1 =
      (variants.foldl procVariant ([], [], 0, 0)).2.2.2 +
        (variants.foldl procVariant ([], [], 0, 0)).2.1.length
    omega
  · unfold processSubjectGroup
    simp only
    rw [h2]
    exact h3.map fun a b hab => Option.some_injective _ hab
  · intro f hf
    have : parseUnitCode f ∈ (variants.foldl procVariant ([], [], 0, 0)).2.1.map parseUnitCode :=
      List.mem_map_of_mem parseUnitCode hf
    rw [h2] at this
    obtain ⟨c, _, hc⟩ := List.mem_map.mp this
    rw [← hc]
    rfl

theorem organizeGroupStep_totals {out : SessionOutput}
    (h : out.totalFiles = out.duplicates + out.copies.length)
    (g : String × List RawSubject) :
    (organizeGroupStep out g).totalFiles =
      (organizeGroupStep out g).duplicates + (organizeGroupStep out g).copies.length := by
  have hg := (processSubjectGroup_spec g.2).1
  unfold organizeGroupStep
  split
  · dsimp only
    simp only [List.length_append, List.length_map]
    unfold processMathSubjects at *
    omega
  · dsimp only
    simp only [List.length_append, List.length_map]
    unfold processRegularSubjects at *
    omega

theorem sessionFold_totals (gs : List (String × List RawSubject)) :
    ∀ acc : SessionOutput, acc.totalFiles = acc.duplicates + acc.copies.length →
      (gs.foldl organizeGroupStep acc).totalFiles =
        (gs.foldl organizeGroupStep acc).duplicates +
          (gs.foldl organizeGroupStep acc).copies.length := by
  induction gs with
  | nil => intro acc h; exact h
  | cons g rest ih => intro acc h; exact ih _ (organizeGroupStep_totals h g)

theorem organizeSession_totals (subjects : List RawSubject) :
    (organizeSession subjects).totalFiles =
      (organizeSession subjects).duplicates + (organizeSession subjects).copies.length :=
  sessionFold_totals (groupSubjects subjects) ⟨[], 0, 0⟩ rfl

theorem organizeSessionStep_totals {out : TreeOutput} (qname : String)
    (h : out.totalFiles = out.duplicates + out.copies.length) (s : SessEntry) :
    (organizeSessionStep qname out s).totalFiles =
      (organizeSessionStep qname out s).duplicates +
        (organizeSessionStep qname out s).copies.length := by
  have hs := organizeSession_totals s.subjects
  unfold organizeSessionStep
  split
  · exact h
  · dsimp only
    simp only [List.length_append, List.length_map]
    omega

theorem qualFold_totals (qname : String) (ss : List SessEntry) :
    ∀ acc : TreeOutput, acc.totalFiles = acc.duplicates + acc.copies.length →
      (ss.foldl (organizeSessionStep qname) acc).totalFiles =
        (ss.foldl (organizeSessionStep qname) acc).duplicates +
          (ss.foldl (organizeSessionStep qname) acc).copies.length := by
  induction ss with
  | nil => intro acc h; exact h
  | cons s rest ih => intro acc h; exact ih _ (organizeSessionStep_totals qname h s)

theorem organizeQualStep_totals {out : TreeOutput}
    (h : out.totalFiles = out.duplicates + out.copies.length) (q : QualEntry) :
    (organizeQualStep out q).totalFiles =
      (organizeQualStep out q).duplicates + (organizeQualStep out q).copies.length := by
  unfold organizeQualStep
  split
  · exact h
  · exact qualFold_totals q.name q.sessions out h

theorem organizeData_totals (tree : List QualEntry) :
    (organizeData tree).totalFiles =
      (organizeData tree).duplicates + (organizeData tree).copies.length := by
  unfold organizeData
  generalize hacc : (⟨[], 0, 0⟩ : TreeOutput) = acc
  have hbase : acc.totalFiles = acc.duplicates + acc.copies.length := by
    subst hacc; rfl
  clear hacc
  induction tree generalizing acc with
  | nil => exact hbase
  | cons q rest ih => exact ih _ (organizeQualStep_totals hbase q)

/-! ## Claim theorems -/

/-- C1: evidence for the accounting slip in `processSubject`/`processUnit`.
In a run over one valid session with one filtered subject and one discovered
unit whose extraction yields zero usable rows, the unit is marked failed (so
every discovered unit is accounted for, and the accounted total `1` is
nonzero), yet the session is never flagged session-completed: `processUnit`
returns `false` on the no-data path without the unit being counted as
processed, so `sessionProcessedUnits (0) ≠ sessionTotalUnits (1)` and
`markSessionAsCompleted` is not invoked — contradicting the claim (and the
spec), which require the flag exactly in this situation. -/
theorem c1_session_flag_missed_when_all_units_accounted :
    ((scrapeSeries "t" [] [⟨"June 2019", some [⟨"Physics", some [⟨"Unit 1", .rows 0⟩]⟩]⟩]
        freshProgress).map fun r =>
      (hasFailed r.tracker QUALIFICATION_TYPE "June 2019" "Physics" "Unit 1",
       isCompleted r.tracker QUALIFICATION_TYPE "June 2019" "Physics" "Unit 1",
       isSessionCompleted r.tracker QUALIFICATION_TYPE "June 2019",
       r.tracker.stats)) = some (true, false, false, ⟨1, 1, 1, 0, 1, 0⟩) := by
  decide

/-- C2 counterexample: on the claim's own input — raw subjects
`Mathematics_(2018)`, `Further_Mathematics` and `Pure_Mathematics_(2015)`,
each holding one `.json` file parsing to `WMA01-01` — the merge engine
reports 0 duplicates for the session, not 2: the three folders have three
distinct base names, so they form three separate groups with three separate
dedup sets, and only the group whose member is *exactly* a math-family name
(`Further_Mathematics`) takes the math consolidation path. -/
theorem c2_math_consolidation_counterexample :
    (organizeSession
      [⟨"Mathematics_(2018)", some ["WMA01-01.json"]⟩,
       ⟨"Further_Mathematics", some ["WMA01-01.json"]⟩,
       ⟨"Pure_Mathematics_(2015)", some ["WMA01-01.json"]⟩]).duplicates ≠ 2 := by
  decide

/-- C2 amended: on that input the engine forms three groups; the
`Mathematics_(2018)` group is routed as a *regular* subject into a folder
that happens to be named `Mathematics`, the `Further_Mathematics` group takes
the math path into the same `Mathematics` folder, and `Pure_Mathematics_(2015)`
is routed as a regular subject into `Pure_Mathematics`.  Each group processes
one file with its own dedup set, so the duplicate count is 0; the
`Mathematics` folder still ends with exactly the one `WMA01-01` file, because
the copy from the math group overwrites the identically-named copy from the
regular group. -/
theorem c2_math_consolidation_amended :
    (organizeSession
      [⟨"Mathematics_(2018)", some ["WMA01-01.json"]⟩,
       ⟨"Further_Mathematics", some ["WMA01-01.json"]⟩,
       ⟨"Pure_Mathematics_(2015)", some ["WMA01-01.json"]⟩]).duplicates = 0 ∧
    (organizeSession
      [⟨"Mathematics_(2018)", some ["WMA01-01.json"]⟩,
       ⟨"Further_Mathematics", some ["WMA01-01.json"]⟩,
       ⟨"Pure_Mathematics_(2015)", some ["WMA01-01.json"]⟩]).copies =
      [("Mathematics", "WMA01-01.json"), ("Mathematics", "WMA01-01.json"),
       ("Pure_Mathematics", "WMA01-01.json")] ∧
    folderContents
      (organizeSession
        [⟨"Mathematics_(2018)", some ["WMA01-01.json"]⟩,
         ⟨"Further_Mathematics", some ["WMA01-01.json"]⟩,
         ⟨"Pure_Mathematics_(2015)", some ["WMA01-01.json"]⟩]) "Mathematics" =
      ["WMA01-01.json"] ∧
    folderContents
      (organizeSession
        [⟨"Mathematics_(2018)", some ["WMA01-01.json"]⟩,
         ⟨"Further_Mathematics", some ["WMA01-01.json"]⟩,
         ⟨"Pure_Mathematics_(2015)", some ["WMA01-01.json"]⟩]) "Pure_Mathematics" =
      ["WMA01-01.json"] := by
  refine ⟨by decide, by decide, by decide, by decide⟩

/-- C4 counterexample: two different groups can write into the same canonical
folder.  Raw subjects `Further_Mathematics` and `Pure_Mathematics` are both
exact math-family names but have different base names, so they form two
groups, each routed into the fixed `Mathematics` folder with its own dedup
set; their differently-named files both parse to `WMA01-01`, leaving two
files with the same unit identifier in one canonical subject folder. -/
theorem c4_per_folder_uniqueness_counterexample :
    folderContents
      (organizeSession
        [⟨"Further_Mathematics", some ["WMA01-01_a.json"]⟩,
         ⟨"Pure_Mathematics", some ["WMA01-01_b.json"]⟩]) "Mathematics" =
      ["WMA01-01_a.json", "WMA01-01_b.json"] ∧
    parseUnitCode "WMA01-01_a.json" = some "WMA01-01" ∧
    parseUnitCode "WMA01-01_b.json" = some "WMA01-01" ∧
    "WMA01-01_a.json" ≠ "WMA01-01_b.json" := by
  refine ⟨by decide, by decide, by decide, by decide⟩

/-- C4 amended: the at-most-one-file-per-identifier invariant holds per
*invocation*, not per folder: each single call of `processRegularSubjects` or
`processMathSubjects` emits pairwise-distinct unit identifiers (and only
parseable files) into its target folder.  A canonical folder written by
exactly one group therefore satisfies the invariant, but the fixed
`Mathematics` folder may receive files with equal identifiers from different
math-family groups. -/
theorem c4_per_invocation_uniqueness : ∀ variants : List RawSubject,
    ((processRegularSubjects variants).copies.map parseUnitCode).Nodup ∧
    ((processMathSubjects variants).copies.map parseUnitCode).Nodup ∧
    (∀ f ∈ (processRegularSubjects variants).copies, (parseUnitCode f).isSome = true) ∧
    (∀ f ∈ (processMathSubjects variants).copies, (parseUnitCode f).isSome = true) := by
  intro variants
  obtain ⟨_, h2, h3⟩ := processSubjectGroup_spec variants
  exact ⟨h2, h2, h3, h3⟩

/-- C5: for every invocation of `processRegularSubjects` and
`processMathSubjects`, `duplicatesFound` equals `processedFiles` minus the
number of distinct identifiers emitted (the emitted files carry
pairwise-distinct identifiers, so that number is the number of copies), and
the tree-level totals of `organizeData` satisfy
`duplicates = totalFiles - (total copies over all groups)`. -/
theorem c5_duplicate_count_invariant :
    (∀ variants : List RawSubject,
      (processRegularSubjects variants).duplicatesFound =
        (processRegularSubjects variants).processedFiles -
          (processRegularSubjects variants).copies.length ∧
      (processMathSubjects variants).duplicatesFound =
        (processMathSubjects variants).processedFiles -
          (processMathSubjects variants).copies.length ∧
      ((processRegularSubjects variants).copies.map parseUnitCode).Nodup ∧
      ((processMathSubjects variants).copies.map parseUnitCode).Nodup) ∧
    (∀ tree : List QualEntry,
      (organizeData tree).duplicates =
        (organizeData tree).totalFiles - (organizeData tree).copies.length) := by
  constructor
  · intro variants
    obtain ⟨h1, h2, _⟩ := processSubjectGroup_spec variants
    unfold processRegularSubjects processMathSubjects
    exact ⟨by omega, by omega, h2, h2⟩
  · intro tree
    have h := organizeData_totals tree
    omega

/-- C6: when reading or parsing the ledger file fails (missing file or
invalid JSON), the tracker keeps the constructor's fresh empty ledger state —
empty `completed`, `failed` and `completedSessions` maps and all six counters
zero — stamps it with the current time, persists it, and returns normally
(the embedding is a total function, so no exception escapes). -/
theorem c6_corrupt_ledger_recovery : ∀ now : String,
    initProgressTracker none now = ({ freshProgress with lastUpdate := some now }, true) ∧
    (initProgressTracker none now).1.completed = [] ∧
    (initProgressTracker none now).1.failed = [] ∧
    (initProgressTracker none now).1.completedSessions = [] ∧
    (initProgressTracker none now).1.stats = ⟨0, 0, 0, 0, 0, 0⟩ ∧
    (initProgressTracker none now).2 = true :=
  fun _ => ⟨rfl, rfl, rfl, rfl, rfl, rfl⟩

/-- C7: `parseUnitCode` returns exactly the prefix matched by the pattern
`[A-Z]{2,3}\d{2}(-\d{2})?[A-Z]?` anchored at the start of the name — whenever
it returns a code, the code satisfies the pattern and is a prefix of the
name, and it returns the not-found result precisely when no prefix of the
name satisfies the pattern; in particular
`parseUnitCode "WMA02-01C_something.json" = some "WMA02-01C"` and
`parseUnitCode "readme.txt" = none`. -/
theorem c7_parseUnitCode_anchored_pattern :
    parseUnitCode "WMA02-01C_something.json" = some "WMA02-01C" ∧
    parseUnitCode "readme.txt" = none ∧
    (∀ name code : List Char, parseUnitCodeL name = some code →
      specUnitCodePattern code = true ∧ ∃ rest, name = code ++ rest) ∧
    (∀ name : List Char, parseUnitCodeL name = none →
      ∀ code rest : List Char, name = code ++ rest → specUnitCodePattern code = false) := by
  refine ⟨by decide, by decide, ?_, ?_⟩
  · intro name code h
    exact parseUnitCodeL_sound h
  · intro name hnone code rest hsplit
    cases hsp : specUnitCodePattern code with
    | false => rfl
    | true =>
      obtain ⟨t, ht⟩ := parseUnitCodeL_complete rest hsp
      rw [hsplit, ht] at hnone
      exact absurd hnone (by simp)

/-- C7 witness: the soundness component of the theorem applied at the
concrete filename `WMA02-01C_something.json`. -/
theorem c7_parseUnitCode_witness :
    specUnitCodePattern "WMA02-01C".data = true ∧
    ∃ rest, "WMA02-01C_something.json".data = "WMA02-01C".data ++ rest :=
  c7_parseUnitCode_anchored_pattern.2.2.1 "WMA02-01C_something.json".data
    "WMA02-01C".data (by decide)

/-- C8 counterexample: `getBaseSubjectName` is not idempotent.  Removing the
inner year token of `"(20(2015)15)"` splices the surrounding characters into
the new year token `"(2015)"`, which a second application removes entirely. -/
theorem c8_not_idempotent_counterexample :
    getBaseSubjectName (getBaseSubjectName "(20(2015)15)") ≠
      getBaseSubjectName "(20(2015)15)" ∧
    getBaseSubjectName "(20(2015)15)" = "(2015)" ∧
    getBaseSubjectName (getBaseSubjectName "(20(2015)15)") = "" := by
  refine ⟨by decide, by decide, by decide⟩

/-- C8 amended: `getBaseSubjectName` is a total function (by construction of
the embedding), and it is idempotent on every string whose normalized result
contains no further year-token match — that is, whenever the year-stripping
pass fixes `getBaseSubjectName S`.  Strings whose year tokens are spliced
together by the first pass (as in the counterexample) are the only
exceptions. -/
theorem c8_idempotent_when_no_residual_year (S : String)
    (h : stripYears (stripTrailingUnderscores (stripYears S.data)) =
      stripTrailingUnderscores (stripYears S.data)) :
    getBaseSubjectName (getBaseSubjectName S) = getBaseSubjectName S := by
  unfold getBaseSubjectName
  dsimp only
  rw [h, stripTrailingUnderscores_idem]

/-- C8 witness: the amended theorem applied at `"Mathematics_(2018)"`. -/
theorem c8_idempotent_witness :
    getBaseSubjectName (getBaseSubjectName "Mathematics_(2018)") =
      getBaseSubjectName "Mathematics_(2018)" :=
  c8_idempotent_when_no_residual_year "Mathematics_(2018)" (by decide)

/-- C9: `getSummary` does not clamp the completion percentage — whenever
`stats.totalUnits > 0` it reports `Math.round((completedUnits / totalUnits) *
100)` with a percent sign, even when `completedUnits` exceeds `totalUnits`;
`updateStats` unconditionally overwrites the three totals while leaving
`completedUnits` untouched; and such over-100% states are reachable through
the orchestrator, because `scrapeSeries` resets the totals at run start while
`completedUnits` persists in the ledger: a run over a world with two units,
both already completed in a ledger carrying five completed units, ends with
`completedUnits = 5` and `totalUnits = 2`, whose summary reports `250%`. -/
theorem c9_summary_percentage_unclamped :
    (∀ t : Progress, 0 < t.stats.totalUnits →
      (getSummary t).progress =
        toString (jsRound ((t.stats.completedUnits : ℚ) / t.stats.totalUnits * 100)) ++ "%") ∧
    (∀ (t : Progress) (a b c : Nat),
      (updateStats t a b c).stats.totalSessions = a ∧
      (updateStats t a b c).stats.totalSubjects = b ∧
      (updateStats t a b c).stats.totalUnits = c ∧
      (updateStats t a b c).stats.completedUnits = t.stats.completedUnits ∧
      (updateStats t a b c).stats.failedUnits = t.stats.failedUnits ∧
      (updateStats t a b c).stats.completedSessions = t.stats.completedSessions) ∧
    ((scrapeSeries "t2" []
        [⟨"June 2019", some [⟨"Physics", some [⟨"Unit 1", .rows 3⟩, ⟨"Unit 2", .rows 4⟩]⟩]⟩]
        (markAsCompleted
          (markAsCompleted
            (markAsCompleted
              (markAsCompleted
                (markAsCompleted freshProgress QUALIFICATION_TYPE "June 2019" "Physics" "Unit 1")
                QUALIFICATION_TYPE "June 2019" "Physics" "Unit 2")
              "Q2" "S" "Sub" "U3")
            "Q2" "S" "Sub" "U4")
          "Q2" "S" "Sub" "U5")).map fun r => (r.tracker.stats, r.selections)) =
      some (⟨1, 1, 2, 5, 0, 1⟩, 0) ∧
    (getSummary { freshProgress with stats := ⟨1, 1, 2, 5, 0, 1⟩ }).progress = "250%" := by
  refine ⟨?_, ?_, by decide, ?_⟩
  · intro t ht
    simp only [getSummary]
    rw [if_pos ht]
  · intro t a b c
    exact ⟨rfl, rfl, rfl, rfl, rfl, rfl⟩
  · show (if 0 < (2 : Nat) then
        toString (jsRound (((5 : Nat) : ℚ) / ((2 : Nat) : ℚ) * 100)) ++ "%" else "0%") = "250%"
    rw [if_pos (by norm_num)]
    rw [show (((5 : Nat) : ℚ) / ((2 : Nat) : ℚ) * 100) = 250 by norm_num]
    rw [show jsRound (250 : ℚ) = 250 by norm_num [jsRound]]
    decide

/-- C9 witness: the unclamped-percentage component applied at the reachable
over-100% ledger state. -/
theorem c9_summary_percentage_witness :
    (getSummary { freshProgress with stats := ⟨1, 1, 2, 5, 0, 1⟩ }).progress =
      toString (jsRound (((5 : Nat) : ℚ) / ((2 : Nat) : ℚ) * 100)) ++ "%" :=
  c9_summary_percentage_unclamped.1 { freshProgress with stats := ⟨1, 1, 2, 5, 0, 1⟩ }
    (by norm_num)

/-- C10: the ledger state produced by `markAsFailed` is independent of its
`error` argument — for every ledger state and any two reason strings the
results are identical, so the failure reason is never stored in the ledger. -/
theorem c10_markAsFailed_ignores_reason :
    ∀ (t : Progress) (q s subj u r1 r2 : String),
      markAsFailed t q s subj u r1 = markAsFailed t q s subj u r2 :=
  fun _ _ _ _ _ _ _ => rfl

theorem lookupA_updAssoc_self {α : Type} (m : List (String × α)) (k : String)
    (d : α) (f : α → α) :
    lookupA (updAssoc m k d f) k = some (f ((lookupA m k).getD d)) := by
  induction m with
  | nil => simp [updAssoc, lookupA]
  | cons p rest ih =>
    obtain ⟨k1, v⟩ := p
    by_cases h : k1 = k
    · subst h
      simp [updAssoc, lookupA]
    · simp only [updAssoc, if_neg h, lookupA, if_neg h]
      exact ih

theorem lookupA_updAssoc_ne {α : Type} (m : List (String × α)) {k x : String}
    (d : α) (f : α → α) (h : x ≠ k) :
    lookupA (updAssoc m k d f) x = lookupA m x := by
  induction m with
  | nil =>
    simp only [updAssoc, lookupA]
    rw [if_neg fun hh => h hh.symm]
  | cons p rest ih =>
    obtain ⟨k1, v⟩ := p
    by_cases h1 : k1 = k
    · subst h1
      simp only [updAssoc, if_pos rfl, lookupA]
      rw [if_neg fun hh => h hh.symm, if_neg fun hh => h hh.symm]
    · simp only [updAssoc, if_neg h1, lookupA]
      by_cases h2 : k1 = x
      · rw [if_pos h2, if_pos h2]
      · rw [if_neg h2, if_neg h2]
        exact ih

theorem containsStr_append_left {l : List String} {x : String} (l2 : List String)
    (h : containsStr l x = true) : containsStr (l ++ l2) x = true :=
  containsStr_iff_mem.mpr (List.mem_append_left l2 (containsStr_iff_mem.mp h))

theorem containsStr_insert_self (l : List String) (u : String) :
    containsStr (if containsStr l u = true then l else l ++ [u]) u = true := by
  split
  · assumption
  · exact containsStr_iff_mem.mpr (List.mem_append_right l (List.mem_singleton.mpr rfl))

theorem containsStr_insert_mono {l : List String} {u : String}
    (h : containsStr l u = true) (u' : String) :
    containsStr (if containsStr l u' = true then l else l ++ [u']) u = true := by
  split
  · exact h
  · exact containsStr_append_left [u'] h

theorem memUnitMap_insertUnit_self (m : UnitMap) (q s subj u : String) :
    memUnitMap (insertUnit m q s subj u) q s subj u = true := by
  unfold memUnitMap insertUnit
  rw [lookupA_updAssoc_self]
  dsimp only
  rw [lookupA_updAssoc_self]
  dsimp only
  rw [lookupA_updAssoc_self]
  dsimp only
  exact containsStr_insert_self _ u

theorem memUnitMap_insertUnit_mono {m : UnitMap} {q s subj u : String}
    (h : memUnitMap m q s subj u = true) (q' s' subj' u' : String) :
    memUnitMap (insertUnit m q' s' subj' u') q s subj u = true := by
  unfold memUnitMap at h
  cases hq1 : lookupA m q with
  | none => rw [hq1] at h; exact absurd h (by simp)
  | some m1 =>
    rw [hq1] at h
    dsimp only at h
    cases hs1 : lookupA m1 s with
    | none => rw [hs1] at h; exact absurd h (by simp)
    | some m2 =>
      rw [hs1] at h
      dsimp only at h
      cases hsub1 : lookupA m2 subj with
      | none => rw [hsub1] at h; exact absurd h (by simp)
      | some l =>
        rw [hsub1] at h
        dsimp only at h
        unfold memUnitMap insertUnit
        by_cases hq : q = q'
        · subst hq
          rw [lookupA_updAssoc_self, hq1]
          dsimp only [Option.getD_some]
          by_cases hs : s = s'
          · subst hs
            rw [lookupA_updAssoc_self, hs1]
            dsimp only [Option.getD_some]
            by_cases hsub : subj = subj'
            · subst hsub
              rw [lookupA_updAssoc_self, hsub1]
              dsimp only [Option.getD_some]
              exact containsStr_insert_mono h u'
            · rw [lookupA_updAssoc_ne _ _ _ hsub, hsub1]
              exact h
          · rw [lookupA_updAssoc_ne _ _ _ hs, hs1]
            dsimp only
            rw [hsub1]
            exact h
        · rw [lookupA_updAssoc_ne _ _ _ hq, hq1]
          dsimp only
          rw [hs1]
          dsimp only
          rw [hsub1]
          exact h

theorem accounted_markAsCompleted_self (t : Progress) (q s subj u : String) :
    accounted (markAsCompleted t q s subj u) q s subj u = true := by
  unfold accounted isCompleted markAsCompleted
  dsimp only
  rw [memUnitMap_insertUnit_self]
  rfl

theorem accounted_markAsFailed_self (t : Progress) (q s subj u err : String) :
    accounted (markAsFailed t q s subj u err) q s subj u = true := by
  unfold accounted hasFailed markAsFailed
  dsimp only
  rw [memUnitMap_insertUnit_self]
  simp

theorem accounted_markAsCompleted_mono {t : Progress} {q s subj u : String}
    (h : accounted t q s subj u = true) (q' s' subj' u' : String) :
    accounted (markAsCompleted t q' s' subj' u') q s subj u = true := by
  unfold accounted isCompleted hasFailed markAsCompleted at *
  dsimp only at *
  rcases Bool.or_eq_true _ _ |>.mp h with hC | hF
  · rw [memUnitMap_insertUnit_mono hC]
    rfl
  · rw [hF]
    simp

theorem accounted_markAsFailed_mono {t : Progress} {q s subj u : String}
    (h : accounted t q s subj u = true) (q' s' subj' u' err : String) :
    accounted (markAsFailed t q' s' subj' u' err) q s subj u = true := by
  unfold accounted isCompleted hasFailed markAsFailed at *
  dsimp only at *
  rcases Bool.or_eq_true _ _ |>.mp h with hC | hF
  · rw [hC]
    rfl
  · rw [memUnitMap_insertUnit_mono hF]
    simp

theorem accounted_save (now : String) (t : Progress) (q s subj u : String) :
    accounted (save now t) q s subj u = accounted t q s subj u := rfl

theorem accounted_updateStats (t : Progress) (a b c : Nat) (q s subj u : String) :
    accounted (updateStats t a b c) q s subj u = accounted t q s subj u := rfl

theorem accounted_markSession (t : Progress) (q' s' q s subj u : String) :
    accounted (markSessionAsCompleted t q' s') q s subj u = accounted t q s subj u := rfl

theorem flag_markSession_self (t : Progress) (q s : String) :
    isSessionCompleted (markSessionAsCompleted t q s) q s = true := by
  unfold isSessionCompleted markSessionAsCompleted
  dsimp only
  rw [lookupA_updAssoc_self]
  dsimp only
  exact containsStr_insert_self _ s

theorem flag_markSession_mono {t : Progress} {q s : String}
    (h : isSessionCompleted t q s = true) (q' s' : String) :
    isSessionCompleted (markSessionAsCompleted t q' s') q s = true := by
  unfold isSessionCompleted at h
  cases hq1 : lookupA t.completedSessions q with
  | none => rw [hq1] at h; exact absurd h (by simp)
  | some l =>
    rw [hq1] at h
    dsimp only at h
    unfold isSessionCompleted markSessionAsCompleted
    dsimp only
    by_cases hq : q = q'
    · subst hq
      rw [lookupA_updAssoc_self, hq1]
      dsimp only [Option.getD_some]
      exact containsStr_insert_mono h s'
    · rw [lookupA_updAssoc_ne _ _ _ hq, hq1]
      exact h

theorem flag_save (now : String) (t : Progress) (q s : String) :
    isSessionCompleted (save now t) q s = isSessionCompleted t q s := rfl

theorem flag_updateStats (t : Progress) (a b c : Nat) (q s : String) :
    isSessionCompleted (updateStats t a b c) q s = isSessionCompleted t q s := rfl

theorem flag_markAsCompleted (t : Progress) (q' s' subj' u' q s : String) :
    isSessionCompleted (markAsCompleted t q' s' subj' u') q s =
      isSessionCompleted t q s := rfl

theorem flag_markAsFailed (t : Progress) (q' s' subj' u' err q s : String) :
    isSessionCompleted (markAsFailed t q' s' subj' u' err) q s =
      isSessionCompleted t q s := rfl

theorem unitStep_accounted (now q s subj : String) (t : Progress) (u : UnitData) :
    accounted (unitStep now q s subj t u).1 q s subj u.name = true := by
  unfold unitStep
  by_cases h1 : isCompleted t q s subj u.name = true
  · rw [if_pos h1]
    unfold accounted
    rw [h1]
    rfl
  · rw [if_neg h1]
    by_cases h2 : hasFailed t q s subj u.name = true
    · rw [if_pos h2]
      unfold accounted
      rw [h2]
      simp
    · rw [if_neg h2]
      rcases u.result with n | _ | msg
      · rcases n with _ | n
        · exact accounted_markAsFailed_self t q s subj u.name "No data extracted"
        · exact accounted_markAsCompleted_self t q s subj u.name
      · exact accounted_markAsFailed_self t q s subj u.name "No tabs section found"
      · exact accounted_markAsFailed_self t q s subj u.name msg

theorem unitStep_mono_accounted (now q s subj : String) (t : Progress) (u : UnitData)
    {q2 s2 subj2 u2 : String} (h : accounted t q2 s2 subj2 u2 = true) :
    accounted (unitStep now q s subj t u).1 q2 s2 subj2 u2 = true := by
  unfold unitStep
  by_cases h1 : isCompleted t q s subj u.name = true
  · rw [if_pos h1]; exact h
  · rw [if_neg h1]
    by_cases h2 : hasFailed t q s subj u.name = true
    · rw [if_pos h2]; exact h
    · rw [if_neg h2]
      rcases u.result with n | _ | msg
      · rcases n with _ | n
        · exact accounted_markAsFailed_mono h q s subj u.name "No data extracted"
        · exact accounted_markAsCompleted_mono h q s subj u.name
      · exact accounted_markAsFailed_mono h q s subj u.name "No tabs section found"
      · exact accounted_markAsFailed_mono h q s subj u.name msg

theorem unitStep_mono_flag (now q s subj : String) (t : Progress) (u : UnitData)
    {q2 s2 : String} (h : isSessionCompleted t q2 s2 = true) :
    isSessionCompleted (unitStep now q s subj t u).1 q2 s2 = true := by
  unfold unitStep
  by_cases h1 : isCompleted t q s subj u.name = true
  · rw [if_pos h1]; exact h
  · rw [if_neg h1]
    by_cases h2 : hasFailed t q s subj u.name = true
    · rw [if_pos h2]; exact h
    · rw [if_neg h2]
      rcases u.result with n | _ | msg
      · rcases n with _ | n
        · rw [flag_save, flag_markAsFailed]; exact h
        · rw [flag_save, flag_markAsCompleted]; exact h
      · rw [flag_save, flag_markAsFailed]; exact h
      · rw [flag_save, flag_markAsFailed]; exact h

theorem unitStep_skip {now q s subj : String} {t : Progress} {u : UnitData}
    (h : accounted t q s subj u.name = true) :
    unitStep now q s subj t u = (t, true, 0) := by
  unfold unitStep
  by_cases h1 : isCompleted t q s subj u.name = true
  · rw [if_pos h1]
  · rw [if_neg h1]
    unfold accounted at h
    rcases Bool.or_eq_true _ _ |>.mp h with hC | hF
    · exact absurd hC h1
    · rw [if_pos hF]

theorem unitsFold_mono_accounted (now q s subj : String) (units : List UnitData) :
    ∀ (acc : Progress × Nat × Nat) {q2 s2 subj2 u2 : String},
      accounted acc.1 q2 s2 subj2 u2 = true →
      accounted (units.foldl (subjUnitStep now q s subj) acc).1 q2 s2 subj2 u2 = true := by
  induction units with
  | nil => intro acc _ _ _ _ h; exact h
  | cons u rest ih =>
    intro acc q2 s2 subj2 u2 h
    exact ih _ (unitStep_mono_accounted now q s subj acc.1 u h)

theorem unitsFold_mono_flag (now q s subj : String) (units : List UnitData) :
    ∀ (acc : Progress × Nat × Nat) {q2 s2 : String},
      isSessionCompleted acc.1 q2 s2 = true →
      isSessionCompleted (units.foldl (subjUnitStep now q s subj) acc).1 q2 s2 = true := by
  induction units with
  | nil => intro acc _ _ h; exact h
  | cons u rest ih =>
    intro acc q2 s2 h
    exact ih _ (unitStep_mono_flag now q s subj acc.1 u h)

theorem unitsFold_accounted (now q s subj : String) (units : List UnitData) :
    ∀ (acc : Progress × Nat × Nat) (u : UnitData), u ∈ units →
      accounted (units.foldl (subjUnitStep now q s subj) acc).1 q s subj u.name = true := by
  induction units with
  | nil => intro acc u h; exact absurd h (List.not_mem_nil u)
  | cons v rest ih =>
    intro acc u h
    rcases List.mem_cons.mp h with h | h
    · subst h
      exact unitsFold_mono_accounted now q s subj rest _
        (unitStep_accounted now q s subj acc.1 u)
    · exact ih _ u h

theorem unitsFold_skip (now q s subj : String) (units : List UnitData) :
    ∀ (acc : Progress × Nat × Nat),
      (∀ u ∈ units, accounted acc.1 q s subj u.name = true) →
      units.foldl (subjUnitStep now q s subj) acc =
        (acc.1, acc.2.1 + units.length, acc.2.2) := by
  induction units with
  | nil => intro acc _; rfl
  | cons u rest ih =>
    intro acc h
    have hu : accounted acc.1 q s subj u.name = true := h u (List.mem_cons_self u rest)
    have hstep : subjUnitStep now q s subj acc u = (acc.1, acc.2.1 + 1, acc.2.2) := by
      unfold subjUnitStep
      rw [unitStep_skip hu]
      simp
    rw [List.foldl_cons, hstep,
      ih (acc.1, acc.2.1 + 1, acc.2.2) (fun v hv => h v (List.mem_cons_of_mem u hv))]
    simp only [List.length_cons]
    refine congrArg (fun n => (acc.1, n, acc.2.2)) ?_
    omega

theorem processSubject_mono_accounted (now q sname : String) (t : Progress) (sd : SubjectData)
    {q2 s2 subj2 u2 : String} (h : accounted t q2 s2 subj2 u2 = true) :
    ∀ t' tu pu sel, processSubject now q sname t sd = some (t', tu, pu, sel) →
      accounted t' q2 s2 subj2 u2 = true := by
  unfold processSubject
  cases hu : sd.units with
  | none => intro t' tu pu sel hp; exact absurd hp (by simp)
  | some units =>
    intro t' tu pu sel hp
    dsimp only at hp
    injection hp with hp
    have h1 := congrArg Prod.fst hp
    dsimp only at h1
    rw [← h1]
    exact unitsFold_mono_accounted now q sname sd.name units _ h

theorem processSubject_mono_flag (now q sname : String) (t : Progress) (sd : SubjectData)
    {q2 s2 : String} (h : isSessionCompleted t q2 s2 = true) :
    ∀ t' tu pu sel, processSubject now q sname t sd = some (t', tu, pu, sel) →
      isSessionCompleted t' q2 s2 = true := by
  unfold processSubject
  cases hu : sd.units with
  | none => intro t' tu pu sel hp; exact absurd hp (by simp)
  | some units =>
    intro t' tu pu sel hp
    dsimp only at hp
    injection hp with hp
    have h1 := congrArg Prod.fst hp
    dsimp only at h1
    rw [← h1]
    exact unitsFold_mono_flag now q sname sd.name units _ h

theorem processSubject_units_accounted (now q sname : String) (t : Progress) (sd : SubjectData)
    {units : List UnitData} (hu : sd.units = some units) :
    ∀ t' tu pu sel, processSubject now q sname t sd = some (t', tu, pu, sel) →
      ∀ ud ∈ units, accounted t' q sname sd.name ud.name = true := by
  unfold processSubject
  rw [hu]
  intro t' tu pu sel hp ud hud
  dsimp only at hp
  injection hp with hp
  have h1 := congrArg Prod.fst hp
  dsimp only at h1
  rw [← h1]
  exact unitsFold_accounted now q sname sd.name units _ ud hud

theorem processSubject_skip (now q sname : String) (t : Progress) (sd : SubjectData)
    {units : List UnitData} (hu : sd.units = some units)
    (h : ∀ ud ∈ units, accounted t q sname sd.name ud.name = true) :
    processSubject now q sname t sd =
      some (save now (updateStats t t.stats.totalSessions t.stats.totalSubjects
        (t.stats.totalUnits + units.length)), units.length, units.length, 0) := by
  unfold processSubject
  rw [hu]
  dsimp only
  rw [unitsFold_skip now q sname sd.name units _ h]
  simp [getSummary]

theorem accounted_congr {a b : Progress} (h1 : a.completed = b.completed)
    (h2 : a.failed = b.failed) (q s subj u : String) :
    accounted a q s subj u = accounted b q s subj u := by
  unfold accounted isCompleted hasFailed
  rw [h1, h2]

theorem sameSets_refl (a : Progress) : sameSets a a := ⟨rfl, rfl, rfl, rfl⟩

theorem sameSets_trans {a b c : Progress} (h1 : sameSets a b) (h2 : sameSets b c) :
    sameSets a c :=
  ⟨h1.1.trans h2.1, h1.2.1.trans h2.2.1, h1.2.2.1.trans h2.2.2.1, h1.2.2.2.trans h2.2.2.2⟩

theorem sameSets_save (now : String) (t : Progress) : sameSets (save now t) t :=
  ⟨rfl, rfl, rfl, rfl⟩

theorem sameSets_updateStats (t : Progress) (a b c : Nat) :
    sameSets (updateStats t a b c) t := ⟨rfl, rfl, rfl, rfl⟩

theorem sameSets_markSession (t : Progress) (q s : String) :
    sameSets (markSessionAsCompleted t q s) t := by
  refine ⟨rfl, rfl, ?_, ?_⟩ <;>
    · unfold markSessionAsCompleted
      dsimp only
      split <;> rfl

theorem sessionDone_mono {t t' : Progress} {fs : List String} {sd : SessionData}
    (hacc : ∀ q s subj u, accounted t q s subj u = true → accounted t' q s subj u = true)
    (hflag : ∀ q s, isSessionCompleted t q s = true → isSessionCompleted t' q s = true)
    (h : sessionDone t fs sd) : sessionDone t' fs sd := by
  rcases h with h | h
  · exact Or.inl (hflag _ _ h)
  · exact Or.inr fun sl hsl x hx hf units hu ud hud =>
      hacc _ _ _ _ (h sl hsl x hx hf units hu ud hud)

theorem sessSubjStep_mono_accounted (now sname : String)
    (acc : Progress × Nat × Nat × Nat) (x : SubjectData)
    {q2 s2 subj2 u2 : String} (h : accounted acc.1 q2 s2 subj2 u2 = true) :
    accounted (sessSubjStep now sname acc x).1 q2 s2 subj2 u2 = true := by
  unfold sessSubjStep
  cases hp : processSubject now QUALIFICATION_TYPE sname acc.1 x with
  | none => exact h
  | some r =>
    obtain ⟨t2, tu, pu, sel⟩ := r
    dsimp only
    exact processSubject_mono_accounted now QUALIFICATION_TYPE sname acc.1 x h t2 tu pu sel hp

theorem sessSubjStep_mono_flag (now sname : String)
    (acc : Progress × Nat × Nat × Nat) (x : SubjectData)
    {q2 s2 : String} (h : isSessionCompleted acc.1 q2 s2 = true) :
    isSessionCompleted (sessSubjStep now sname acc x).1 q2 s2 = true := by
  unfold sessSubjStep
  cases hp : processSubject now QUALIFICATION_TYPE sname acc.1 x with
  | none => exact h
  | some r =>
    obtain ⟨t2, tu, pu, sel⟩ := r
    dsimp only
    exact processSubject_mono_flag now QUALIFICATION_TYPE sname acc.1 x h t2 tu pu sel hp

theorem subjFold_mono_accounted (now sname : String) (subjects : List SubjectData) :
    ∀ (acc : Progress × Nat × Nat × Nat) {q2 s2 subj2 u2 : String},
      accounted acc.1 q2 s2 subj2 u2 = true →
      accounted (subjects.foldl (sessSubjStep now sname) acc).1 q2 s2 subj2 u2 = true := by
  induction subjects with
  | nil => intro acc _ _ _ _ h; exact h
  | cons x rest ih =>
    intro acc q2 s2 subj2 u2 h
    exact ih _ (sessSubjStep_mono_accounted now sname acc x h)

theorem subjFold_mono_flag (now sname : String) (subjects : List SubjectData) :
    ∀ (acc : Progress × Nat × Nat × Nat) {q2 s2 : String},
      isSessionCompleted acc.1 q2 s2 = true →
      isSessionCompleted (subjects.foldl (sessSubjStep now sname) acc).1 q2 s2 = true := by
  induction subjects with
  | nil => intro acc _ _ h; exact h
  | cons x rest ih =>
    intro acc q2 s2 h
    exact ih _ (sessSubjStep_mono_flag now sname acc x h)

theorem subjFold_accounted (now sname : String) (subjects : List SubjectData) :
    ∀ (acc : Progress × Nat × Nat × Nat), ∀ x ∈ subjects, ∀ units, x.units = some units →
      ∀ ud ∈ units,
        accounted (subjects.foldl (sessSubjStep now sname) acc).1
          QUALIFICATION_TYPE sname x.name ud.name = true := by
  induction subjects with
  | nil => intro acc x hx; exact absurd hx (List.not_mem_nil x)
  | cons y rest ih =>
    intro acc x hx units hu ud hud
    rcases List.mem_cons.mp hx with hx | hx
    · subst hx
      refine subjFold_mono_accounted now sname rest _ ?_
      unfold sessSubjStep
      cases hp : processSubject now QUALIFICATION_TYPE sname acc.1 x with
      | none =>
        unfold processSubject at hp
        rw [hu] at hp
        exact absurd hp (by simp)
      | some r =>
        obtain ⟨t2, tu, pu, sel⟩ := r
        dsimp only
        exact processSubject_units_accounted now QUALIFICATION_TYPE sname acc.1 x hu
          t2 tu pu sel hp ud hud
    · exact ih _ x hx units hu ud hud

theorem subjFold_skip (now sname : String) (subjects : List SubjectData) :
    ∀ (acc : Progress × Nat × Nat × Nat) (t : Progress),
      sameSets acc.1 t →
      (∀ x ∈ subjects, ∀ units, x.units = some units →
        ∀ ud ∈ units, accounted t QUALIFICATION_TYPE sname x.name ud.name = true) →
      sameSets (subjects.foldl (sessSubjStep now sname) acc).1 t ∧
      (subjects.foldl (sessSubjStep now sname) acc).2.2.2 = acc.2.2.2 := by
  induction subjects with
  | nil => intro acc t hsame _; exact ⟨hsame, rfl⟩
  | cons x rest ih =>
    intro acc t hsame hall
    cases hu : x.units with
    | none =>
      have hstep : sessSubjStep now sname acc x = acc := by
        unfold sessSubjStep processSubject
        rw [hu]
      rw [List.foldl_cons, hstep]
      exact ih acc t hsame fun y hy => hall y (List.mem_cons_of_mem x hy)
    | some units =>
      have hacc : ∀ ud ∈ units,
          accounted acc.1 QUALIFICATION_TYPE sname x.name ud.name = true := by
        intro ud hud
        rw [accounted_congr hsame.1 hsame.2.1]
        exact hall x (List.mem_cons_self x rest) units hu ud hud
      have hp := processSubject_skip now QUALIFICATION_TYPE sname acc.1 x hu hacc
      have hstep : sessSubjStep now sname acc x =
          (save now (updateStats acc.1 acc.1.stats.totalSessions acc.1.stats.totalSubjects
            (acc.1.stats.totalUnits + units.length)), acc.2.1 + units.length,
           acc.2.2.1 + units.length, acc.2.2.2 + 0) := by
        unfold sessSubjStep
        rw [hp]
      rw [List.foldl_cons, hstep]
      have hsame2 : sameSets (save now (updateStats acc.1 acc.1.stats.totalSessions
          acc.1.stats.totalSubjects (acc.1.stats.totalUnits + units.length))) t :=
        sameSets_trans
          (sameSets_trans (sameSets_save _ _) (sameSets_updateStats _ _ _ _)) hsame
      obtain ⟨ihs, ihsel⟩ := ih
        (save now (updateStats acc.1 acc.1.stats.totalSessions acc.1.stats.totalSubjects
          (acc.1.stats.totalUnits + units.length)),
         acc.2.1 + units.length, acc.2.2.1 + units.length, acc.2.2.2 + 0) t hsame2
        (fun y hy => hall y (List.mem_cons_of_mem x hy))
      exact ⟨ihs, ihsel⟩

theorem markAsCompleted_totalSessions (t : Progress) (q s subj u : String) :
    (markAsCompleted t q s subj u).stats.totalSessions = t.stats.totalSessions := by
  unfold markAsCompleted
  dsimp only
  split <;> rfl

theorem markAsFailed_totalSessions (t : Progress) (q s subj u err : String) :
    (markAsFailed t q s subj u err).stats.totalSessions = t.stats.totalSessions := by
  unfold markAsFailed
  dsimp only
  split <;> rfl

theorem markSession_totalSessions (t : Progress) (q s : String) :
    (markSessionAsCompleted t q s).stats.totalSessions = t.stats.totalSessions := by
  unfold markSessionAsCompleted
  dsimp only
  split <;> rfl

theorem unitStep_totalSessions (now q s subj : String) (t : Progress) (u : UnitData) :
    (unitStep now q s subj t u).1.stats.totalSessions = t.stats.totalSessions := by
  unfold unitStep
  by_cases h1 : isCompleted t q s subj u.name = true
  · rw [if_pos h1]
  · rw [if_neg h1]
    by_cases h2 : hasFailed t q s subj u.name = true
    · rw [if_pos h2]
    · rw [if_neg h2]
      rcases u.result with n | _ | msg
      · rcases n with _ | n
        · exact markAsFailed_totalSessions t q s subj u.name "No data extracted"
        · exact markAsCompleted_totalSessions t q s subj u.name
      · exact markAsFailed_totalSessions t q s subj u.name "No tabs section found"
      · exact markAsFailed_totalSessions t q s subj u.name msg

theorem unitsFold_totalSessions (now q s subj : String) (units : List UnitData) :
    ∀ acc : Progress × Nat × Nat,
      (units.foldl (subjUnitStep now q s subj) acc).1.stats.totalSessions =
        acc.1.stats.totalSessions := by
  induction units with
  | nil => intro acc; rfl
  | cons u rest ih =>
    intro acc
    rw [List.foldl_cons]
    rw [ih (subjUnitStep now q s subj acc u)]
    exact unitStep_totalSessions now q s subj acc.1 u

theorem processSubject_totalSessions (now q sname : String) (t : Progress) (sd : SubjectData) :
    ∀ t' tu pu sel, processSubject now q sname t sd = some (t', tu, pu, sel) →
      t'.stats.totalSessions = t.stats.totalSessions := by
  unfold processSubject
  cases hu : sd.units with
  | none => intro t' tu pu sel hp; exact absurd hp (by simp)
  | some units =>
    intro t' tu pu sel hp
    dsimp only at hp
    injection hp with hp
    have h1 := congrArg Prod.fst hp
    dsimp only at h1
    rw [← h1, unitsFold_totalSessions]
    rfl

theorem sessSubjStep_totalSessions (now sname : String)
    (acc : Progress × Nat × Nat × Nat) (x : SubjectData) :
    (sessSubjStep now sname acc x).1.stats.totalSessions = acc.1.stats.totalSessions := by
  unfold sessSubjStep
  cases hp : processSubject now QUALIFICATION_TYPE sname acc.1 x with
  | none => rfl
  | some r =>
    obtain ⟨t2, tu, pu, sel⟩ := r
    dsimp only
    exact processSubject_totalSessions now QUALIFICATION_TYPE sname acc.1 x t2 tu pu sel hp

theorem subjFold_totalSessions (now sname : String) (subjects : List SubjectData) :
    ∀ acc : Progress × Nat × Nat × Nat,
      (subjects.foldl (sessSubjStep now sname) acc).1.stats.totalSessions =
        acc.1.stats.totalSessions := by
  induction subjects with
  | nil => intro acc; rfl
  | cons x rest ih =>
    intro acc
    rw [List.foldl_cons, ih (sessSubjStep now sname acc x)]
    exact sessSubjStep_totalSessions now sname acc x

theorem processSession_mono_accounted (now : String) (vc : Nat) (fs : List String)
    (st : Progress × Nat × Nat) (sd : SessionData)
    {q2 s2 subj2 u2 : String} (h : accounted st.1 q2 s2 subj2 u2 = true) :
    accounted (processSession now vc fs st sd).1 q2 s2 subj2 u2 = true := by
  unfold processSession
  dsimp only
  by_cases hflag : isSessionCompleted st.1 QUALIFICATION_TYPE sd.name = true
  · rw [if_pos hflag]; exact h
  · rw [if_neg hflag]
    cases hsub : sd.subjects with
    | none => exact h
    | some subjList =>
      dsimp only
      split
      · rw [accounted_save, accounted_markSession]
        exact subjFold_mono_accounted now sd.name _ _ h
      · exact subjFold_mono_accounted now sd.name _ _ h

theorem processSession_mono_flag (now : String) (vc : Nat) (fs : List String)
    (st : Progress × Nat × Nat) (sd : SessionData)
    {q2 s2 : String} (h : isSessionCompleted st.1 q2 s2 = true) :
    isSessionCompleted (processSession now vc fs st sd).1 q2 s2 = true := by
  unfold processSession
  dsimp only
  by_cases hflag : isSessionCompleted st.1 QUALIFICATION_TYPE sd.name = true
  · rw [if_pos hflag]; exact h
  · rw [if_neg hflag]
    cases hsub : sd.subjects with
    | none => exact h
    | some subjList =>
      dsimp only
      split
      · rw [flag_save]
        exact flag_markSession_mono (subjFold_mono_flag now sd.name _ _ h) _ _
      · exact subjFold_mono_flag now sd.name _ _ h

theorem processSession_totalSessions (now : String) (vc : Nat) (fs : List String)
    (st : Progress × Nat × Nat) (sd : SessionData)
    (hts : st.1.stats.totalSessions = vc) :
    (processSession now vc fs st sd).1.stats.totalSessions = vc := by
  unfold processSession
  dsimp only
  by_cases hflag : isSessionCompleted st.1 QUALIFICATION_TYPE sd.name = true
  · rw [if_pos hflag]; exact hts
  · rw [if_neg hflag]
    cases hsub : sd.subjects with
    | none => exact hts
    | some subjList =>
      dsimp only
      split
      · rw [show ∀ t : Progress, (save now t).stats.totalSessions = t.stats.totalSessions
          from fun _ => rfl, markSession_totalSessions, subjFold_totalSessions]
        rfl
      · rw [subjFold_totalSessions]
        rfl

theorem processSession_establishes (now : String) (vc : Nat) (fs : List String)
    (st : Progress × Nat × Nat) (sd : SessionData) :
    sessionDone (processSession now vc fs st sd).1 fs sd := by
  unfold processSession
  dsimp only
  by_cases hflag : isSessionCompleted st.1 QUALIFICATION_TYPE sd.name = true
  · rw [if_pos hflag]
    exact Or.inl hflag
  · rw [if_neg hflag]
    cases hsub : sd.subjects with
    | none =>
      refine Or.inr fun sl hsl => ?_
      rw [hsub] at hsl
      exact absurd hsl (by simp)
    | some subjList =>
      dsimp only
      refine Or.inr ?_
      intro sl hsl x hx hfilt units hu ud hud
      rw [hsub] at hsl
      injection hsl with hsl
      subst hsl
      have hxf : x ∈ subjList.filter fun y => shouldProcessSubject fs y.name :=
        List.mem_filter.mpr ⟨hx, hfilt⟩
      split
      · rw [accounted_save, accounted_markSession]
        exact subjFold_accounted now sd.name _ _ x hxf units hu ud hud
      · exact subjFold_accounted now sd.name _ _ x hxf units hu ud hud

theorem processSession_skip (now : String) (vc : Nat) (fs : List String)
    (st : Progress × Nat × Nat) (sd : SessionData)
    (hdone : sessionDone st.1 fs sd) :
    sameSets (processSession now vc fs st sd).1 st.1 ∧
    (processSession now vc fs st sd).2.2 = st.2.2 ∧
    (∀ q2 s2, isSessionCompleted st.1 q2 s2 = true →
      isSessionCompleted (processSession now vc fs st sd).1 q2 s2 = true) := by
  unfold processSession
  dsimp only
  by_cases hflag : isSessionCompleted st.1 QUALIFICATION_TYPE sd.name = true
  · rw [if_pos hflag]
    exact ⟨sameSets_refl st.1, rfl, fun q2 s2 h => h⟩
  · rw [if_neg hflag]
    cases hsub : sd.subjects with
    | none => exact ⟨sameSets_refl st.1, rfl, fun q2 s2 h => h⟩
    | some subjList =>
      dsimp only
      rcases hdone with hdone | hdone
      · exact absurd hdone hflag
      · have hall : ∀ x ∈ subjList.filter fun y => shouldProcessSubject fs y.name,
            ∀ units, x.units = some units →
              ∀ ud ∈ units,
                accounted st.1 QUALIFICATION_TYPE sd.name x.name ud.name = true := by
          intro x hx units hu ud hud
          obtain ⟨hx1, hx2⟩ := List.mem_filter.mp hx
          exact hdone subjList hsub x hx1 hx2 units hu ud hud
        obtain ⟨hs, hsel⟩ := subjFold_skip now sd.name
          (subjList.filter fun y => shouldProcessSubject fs y.name)
          (save now (updateStats st.1 vc
            (st.2.1 + (subjList.filter fun y => shouldProcessSubject fs y.name).length) 0),
           0, 0, 0) st.1
          (sameSets_trans (sameSets_save _ _) (sameSets_updateStats _ _ _ _)) hall
        refine ⟨?_, ?_, ?_⟩
        · split
          · exact sameSets_trans
              (sameSets_trans (sameSets_save _ _) (sameSets_markSession _ _ _)) hs
          · exact hs
        · rw [hsel]
          rfl
        · intro q2 s2 h
          split
          · rw [flag_save]
            exact flag_markSession_mono (subjFold_mono_flag now sd.name _ _ h) _ _
          · exact subjFold_mono_flag now sd.name _ _ h

theorem sessFold_mono_accounted (now : String) (vc : Nat) (fs : List String)
    (sds : List SessionData) :
    ∀ (st : Progress × Nat × Nat) {q2 s2 subj2 u2 : String},
      accounted st.1 q2 s2 subj2 u2 = true →
      accounted (sds.foldl (processSession now vc fs) st).1 q2 s2 subj2 u2 = true := by
  induction sds with
  | nil => intro st _ _ _ _ h; exact h
  | cons y rest ih =>
    intro st q2 s2 subj2 u2 h
    exact ih _ (processSession_mono_accounted now vc fs st y h)

theorem sessFold_mono_flag (now : String) (vc : Nat) (fs : List String)
    (sds : List SessionData) :
    ∀ (st : Progress × Nat × Nat) {q2 s2 : String},
      isSessionCompleted st.1 q2 s2 = true →
      isSessionCompleted (sds.foldl (processSession now vc fs) st).1 q2 s2 = true := by
  induction sds with
  | nil => intro st _ _ h; exact h
  | cons y rest ih =>
    intro st q2 s2 h
    exact ih _ (processSession_mono_flag now vc fs st y h)

theorem sessFold_establishes (now : String) (vc : Nat) (fs : List String)
    (sds : List SessionData) :
    ∀ st : Progress × Nat × Nat, ∀ sd ∈ sds,
      sessionDone (sds.foldl (processSession now vc fs) st).1 fs sd := by
  induction sds with
  | nil => intro st sd hsd; exact absurd hsd (List.not_mem_nil sd)
  | cons y rest ih =>
    intro st sd hsd
    rcases List.mem_cons.mp hsd with h | h
    · subst h
      refine sessionDone_mono ?_ ?_ (processSession_establishes now vc fs st sd)
      · intro q s subj u hh
        exact sessFold_mono_accounted now vc fs rest _ hh
      · intro q s hh
        exact sessFold_mono_flag now vc fs rest _ hh
    · exact ih _ sd h

theorem sessFold_totalSessions (now : String) (vc : Nat) (fs : List String)
    (sds : List SessionData) :
    ∀ st : Progress × Nat × Nat, st.1.stats.totalSessions = vc →
      (sds.foldl (processSession now vc fs) st).1.stats.totalSessions = vc := by
  induction sds with
  | nil => intro st h; exact h
  | cons y rest ih =>
    intro st h
    exact ih _ (processSession_totalSessions now vc fs st y h)

theorem sessFold_skip (now : String) (vc : Nat) (fs : List String)
    (sds : List SessionData) :
    ∀ (st : Progress × Nat × Nat) (t : Progress),
      sameSets st.1 t →
      (∀ q2 s2, isSessionCompleted t q2 s2 = true → isSessionCompleted st.1 q2 s2 = true) →
      (∀ sd ∈ sds, sessionDone t fs sd) →
      sameSets (sds.foldl (processSession now vc fs) st).1 t ∧
      (sds.foldl (processSession now vc fs) st).2.2 = st.2.2 := by
  induction sds with
  | nil => intro st t hsame _ _; exact ⟨hsame, rfl⟩
  | cons y rest ih =>
    intro st t hsame hflags hall
    have hdone : sessionDone st.1 fs y := by
      refine sessionDone_mono ?_ hflags (hall y (List.mem_cons_self y rest))
      intro q s subj u h
      rw [accounted_congr hsame.1 hsame.2.1]
      exact h
    obtain ⟨hs1, hsel1, hfl1⟩ := processSession_skip now vc fs st y hdone
    obtain ⟨hs2, hsel2⟩ := ih (processSession now vc fs st y) t
      (sameSets_trans hs1 hsame)
      (fun q2 s2 h => hfl1 q2 s2 (hflags q2 s2 h))
      (fun sd hsd => hall sd (List.mem_cons_of_mem y hsd))
    refine ⟨hs2, ?_⟩
    rw [List.foldl_cons, hsel2, hsel1]

theorem scrapeSeries_sessionDone {now : String} {fs : List String} {w : List SessionData}
    {t0 : Progress} {r : RunResult} (h : scrapeSeries now fs w t0 = some r) :
    ∀ sd ∈ w.filter fun x => sessionValid x.name, sessionDone r.tracker fs sd := by
  unfold scrapeSeries at h
  dsimp only at h
  split at h
  · exact absurd h (by simp)
  · injection h with h
    intro sd hsd
    rw [← h]
    refine sessionDone_mono (fun q s subj u hh => hh) (fun q s hh => hh) ?_
    exact sessFold_establishes now _ fs _ _ sd hsd

theorem scrapeSeries_totalSessions {now : String} {fs : List String} {w : List SessionData}
    {t0 : Progress} {r : RunResult} (h : scrapeSeries now fs w t0 = some r) :
    r.tracker.stats.totalSessions = (w.filter fun x => sessionValid x.name).length := by
  unfold scrapeSeries at h
  dsimp only at h
  split at h
  · exact absurd h (by simp)
  · injection h with h
    rw [← h]
    exact sessFold_totalSessions now _ fs _ _ rfl

theorem scrapeSeries_not_empty {now : String} {fs : List String} {w : List SessionData}
    {t0 : Progress} {r : RunResult} (h : scrapeSeries now fs w t0 = some r) :
    ((w.filter fun x => sessionValid x.name).isEmpty) = false := by
  unfold scrapeSeries at h
  dsimp only at h
  by_cases he : ((w.filter fun x => sessionValid x.name).isEmpty) = true
  · rw [if_pos he] at h
    exact absurd h (by simp)
  · exact Bool.eq_false_iff.mpr he

/-- C3 counterexample: after a completed first run over one valid session with
one subject and one successfully extracted unit, a second run against the
resulting ledger with identical listings performs zero unit-level selections
but does not leave the aggregate counters unchanged: `scrapeSeries` resets
`totalSubjects` and `totalUnits` to zero at run start (and per session) and
never re-accumulates them for sessions skipped via the session-completed
flag, so both drop from 1 to 0.  A second world whose only unit failed
through the no-data path shows `completedSessions` growing from 0 to 1 on the
second run.  Both runs of each pair perform their second pass with zero
selections, yet the counters differ, refuting the claim. -/
theorem c3_second_run_counterexample :
    ((scrapeSeries "t" [] [⟨"June 2019", some [⟨"Physics", some [⟨"Unit 1", .rows 5⟩]⟩]⟩]
        freshProgress).bind fun r1 =>
      (scrapeSeries "u" [] [⟨"June 2019", some [⟨"Physics", some [⟨"Unit 1", .rows 5⟩]⟩]⟩]
        r1.tracker).map fun r2 =>
        (r2.selections,
         decide (r2.tracker.stats.totalSubjects = r1.tracker.stats.totalSubjects),
         decide (r2.tracker.stats.totalUnits = r1.tracker.stats.totalUnits))) =
      some (0, false, false) ∧
    ((scrapeSeries "t" [] [⟨"June 2019", some [⟨"Physics", some [⟨"Unit 1", .rows 0⟩]⟩]⟩]
        freshProgress).bind fun r1 =>
      (scrapeSeries "u" [] [⟨"June 2019", some [⟨"Physics", some [⟨"Unit 1", .rows 0⟩]⟩]⟩]
        r1.tracker).map fun r2 =>
        (r2.selections,
         decide (r2.tracker.stats.completedSessions =
           r1.tracker.stats.completedSessions))) =
      some (0, false) := by
  refine ⟨by decide, by decide⟩

/-- C3 amended: if the orchestrator runs to completion and is run a second
time against the resulting ledger with identical listings, the second run
performs zero unit-level adapter selections and extractions (every leaf is
skipped as already completed or already failed), and it leaves the ledger's
completed and failed sets and the counters `totalSessions`, `completedUnits`
and `failedUnits` unchanged.  The remaining counters are *not* preserved in
general: `totalSubjects` and `totalUnits` are reset at run start (and
`totalUnits` again at each session) and only re-accumulated over sessions not
skipped by the session-completed fast path, and `completedSessions` can grow,
because a session whose failures were recorded through the no-data/no-tabs
path is only flagged on the second run, when the failed-skip branch counts
its units as processed. -/
theorem c3_second_run_amended (now1 now2 : String) (fs : List String)
    (w : List SessionData) (t0 : Progress) (r1 : RunResult)
    (h1 : scrapeSeries now1 fs w t0 = some r1) :
    ∃ r2 : RunResult, scrapeSeries now2 fs w r1.tracker = some r2 ∧
      r2.selections = 0 ∧
      r2.tracker.completed = r1.tracker.completed ∧
      r2.tracker.failed = r1.tracker.failed ∧
      r2.tracker.stats.completedUnits = r1.tracker.stats.completedUnits ∧
      r2.tracker.stats.failedUnits = r1.tracker.stats.failedUnits ∧
      r2.tracker.stats.totalSessions = r1.tracker.stats.totalSessions := by
  have hdone := scrapeSeries_sessionDone h1
  have hts1 := scrapeSeries_totalSessions h1
  have hne := scrapeSeries_not_empty h1
  obtain ⟨hs, hsel⟩ := sessFold_skip now2 (w.filter fun x => sessionValid x.name).length fs
    (w.filter fun x => sessionValid x.name)
    (save now2 (updateStats r1.tracker (w.filter fun x => sessionValid x.name).length 0 0),
     0, 0) r1.tracker
    (sameSets_trans (sameSets_save _ _) (sameSets_updateStats _ _ _ _))
    (fun q2 s2 h => h) hdone
  refine ⟨⟨save now2 ((w.filter fun x => sessionValid x.name).foldl
      (processSession now2 (w.filter fun x => sessionValid x.name).length fs)
      (save now2 (updateStats r1.tracker (w.filter fun x => sessionValid x.name).length 0 0),
       0, 0)).1,
    ((w.filter fun x => sessionValid x.name).foldl
      (processSession now2 (w.filter fun x => sessionValid x.name).length fs)
      (save now2 (updateStats r1.tracker (w.filter fun x => sessionValid x.name).length 0 0),
       0, 0)).2.2⟩, ?_, ?_, ?_, ?_, ?_, ?_, ?_⟩
  · unfold scrapeSeries
    dsimp only
    rw [if_neg (by rw [hne]; exact Bool.false_ne_true)]
  · exact hsel
  · exact hs.1
  · exact hs.2.1
  · exact hs.2.2.1
  · exact hs.2.2.2
  · rw [hts1]
    exact sessFold_totalSessions now2 _ fs _ _ rfl

/-- C3 witness: the amended theorem applied to the concrete one-session world
after its first run from a fresh ledger. -/
theorem c3_second_run_witness :
    ∃ r2 : RunResult,
      scrapeSeries "u" [] [⟨"June 2019", some [⟨"Physics", some [⟨"Unit 1", .rows 5⟩]⟩]⟩]
        (RunResult.mk
          ⟨[("International A Level", [("June 2019", [("Physics", ["Unit 1"])])])], [],
           [("International A Level", ["June 2019"])], some "t", ⟨1, 1, 1, 1, 0, 1⟩⟩
          1).tracker = some r2 ∧
      r2.selections = 0 ∧
      r2.tracker.completed =
        (RunResult.mk
          ⟨[("International A Level", [("June 2019", [("Physics", ["Unit 1"])])])], [],
           [("International A Level", ["June 2019"])], some "t", ⟨1, 1, 1, 1, 0, 1⟩⟩
          1).tracker.completed ∧
      r2.tracker.failed =
        (RunResult.mk
          ⟨[("International A Level", [("June 2019", [("Physics", ["Unit 1"])])])], [],
           [("International A Level", ["June 2019"])], some "t", ⟨1, 1, 1, 1, 0, 1⟩⟩
          1).tracker.failed ∧
      r2.tracker.stats.completedUnits =
        (RunResult.mk
          ⟨[("International A Level", [("June 2019", [("Physics", ["Unit 1"])])])], [],
           [("International A Level", ["June 2019"])], some "t", ⟨1, 1, 1, 1, 0, 1⟩⟩
          1).tracker.stats.completedUnits ∧
      r2.tracker.stats.failedUnits =
        (RunResult.mk
          ⟨[("International A Level", [("June 2019", [("Physics", ["Unit 1"])])])], [],
           [("International A Level", ["June 2019"])], some "t", ⟨1, 1, 1, 1, 0, 1⟩⟩
          1).tracker.stats.failedUnits ∧
      r2.tracker.stats.totalSessions =
        (RunResult.mk
          ⟨[("International A Level", [("June 2019", [("Physics", ["Unit 1"])])])], [],
           [("International A Level", ["June 2019"])], some "t", ⟨1, 1, 1, 1, 0, 1⟩⟩
          1).tracker.stats.totalSessions :=
  c3_second_run_amended "t" "u" []
    [⟨"June 2019", some [⟨"Physics", some [⟨"Unit 1", .rows 5⟩]⟩]⟩] freshProgress
    (RunResult.mk
      ⟨[("International A Level", [("June 2019", [("Physics", ["Unit 1"])])])], [],
       [("International A Level", ["June 2019"])], some "t", ⟨1, 1, 1, 1, 0, 1⟩⟩
      1)
    (by decide)
